import Mathlib

/-!
Verification of the khi core subsystems against their natural-language
specification.

The development shallowly embeds the three specified subsystems:

* the extraction engine (`src-tauri/src/db/kobo.rs`,
  `KoboDatabase::extract_books_with_highlights`): the SQL query over the
  `Bookmark` and `content` tables is modelled as an explicit join over row
  lists (SQLite `LIKE` is implemented character by character, `COALESCE`
  and the `CASE` filter literally), followed by the Rust grouping loop over
  a key/value list that models the `HashMap`;
* the cover resolution engine (`src-tauri/src/covers/mod.rs`): the cache
  directory is a name/entry list, a zip archive is its entry list (the zip
  container format itself is the external `zip` crate and is abstracted to
  the name/content view the code uses), and `extract_cover` is a state
  function that additionally reports whether the archive file was opened;
* the settings persistence manager (`src-tauri/src/settings/mod.rs`): the
  on-disk JSON document is carried as a JSON value (the text grammar of the
  external `serde_json` crate is abstracted; a file is a JSON value, a
  readable non-JSON text, or unreadable bytes such as invalid UTF-8), and
  the serde-derived serializer/deserializer for `AppSettings` is embedded
  field by field, camel-case names and aliases included.

Machine strings are `String`/`List Char`; all definitions are executable.
-/

namespace Khi

/-! ### ASCII and list-of-characters utilities -/

/-- ASCII lower-casing of one character, as SQLite applies for its
case-insensitive `LIKE` (only `A`-`Z` fold). -/
def lch (c : Char) : Char :=
  if 65 ≤ c.toNat && c.toNat ≤ 90 then Char.ofNat (c.toNat + 32) else c

/-- Case-insensitive (ASCII) prefix test on character lists. -/
def prefixCI : List Char → List Char → Bool
  | [], _ => true
  | _ :: _, [] => false
  | p :: ps, c :: cs => (lch p == lch c) && prefixCI ps cs

/-- Case-insensitive (ASCII) substring test on character lists. -/
def substrCI : List Char → List Char → Bool
  | s, [] => s.isEmpty
  | s, c :: cs => prefixCI s (c :: cs) || substrCI s cs

/-- Case-sensitive prefix test on character lists. -/
def prefixCS : List Char → List Char → Bool
  | [], _ => true
  | _ :: _, [] => false
  | p :: ps, c :: cs => (p == c) && prefixCS ps cs

/-- Case-sensitive substring test on character lists. -/
def substrCS : List Char → List Char → Bool
  | s, [] => s.isEmpty
  | s, c :: cs => prefixCS s (c :: cs) || substrCS s cs

/-- Helper of `likeMatch`: try the continuation on every suffix of the text
(this realises the `%` wildcard). -/
def tryTails (f : List Char → Bool) : List Char → Bool
  | [] => f []
  | c :: cs => f (c :: cs) || tryTails f cs

/-- SQLite `LIKE` pattern matching (default `ESCAPE`-less form): `%` matches
any character sequence, `_` any single character, and plain characters
compare ASCII-case-insensitively. Structural on the pattern. -/
def likeMatch : List Char → List Char → Bool
  | [], t => t.isEmpty
  | p :: ps, t =>
    if p = '%' then tryTails (likeMatch ps) t
    else if p = '_' then
      match t with
      | [] => false
      | _ :: ts => likeMatch ps ts
    else
      match t with
      | [] => false
      | c :: ts => (lch p == lch c) && likeMatch ps ts

/-- A pattern chunk with no wildcard characters. -/
abbrev noWildcard (s : List Char) : Prop := ∀ c ∈ s, c ≠ '%' ∧ c ≠ '_'

theorem likeMatch_pct_only (u : List Char) : likeMatch ['%'] u = true := by
  induction u with
  | nil => rfl
  | cons c cs ih =>
    show (likeMatch [] (c :: cs) || tryTails (likeMatch []) cs) = true
    rw [show tryTails (likeMatch []) cs = likeMatch ['%'] cs from rfl, ih]
    simp

theorem likeMatch_trailing_pct :
    ∀ s : List Char, noWildcard s → ∀ t, likeMatch (s ++ ['%']) t = prefixCI s t := by
  intro s
  induction s with
  | nil =>
    intro _ t
    show likeMatch ['%'] t = prefixCI [] t
    rw [likeMatch_pct_only t]
    rfl
  | cons p ps ih =>
    intro hs t
    have hp := hs p (by simp)
    have hps : noWildcard ps := fun c hc => hs c (by simp [hc])
    cases t with
    | nil =>
      show likeMatch (p :: (ps ++ ['%'])) [] = prefixCI (p :: ps) []
      simp only [likeMatch]
      rw [if_neg hp.1, if_neg hp.2]
      rfl
    | cons c cs =>
      show likeMatch (p :: (ps ++ ['%'])) (c :: cs) = prefixCI (p :: ps) (c :: cs)
      simp only [likeMatch]
      rw [if_neg hp.1, if_neg hp.2]
      show ((lch p == lch c) && likeMatch (ps ++ ['%']) cs) = prefixCI (p :: ps) (c :: cs)
      rw [ih hps cs]
      rfl

theorem likeMatch_pct_wrap (s : List Char) (hs : noWildcard s) :
    ∀ t, likeMatch ('%' :: (s ++ ['%'])) t = substrCI s t := by
  intro t
  induction t with
  | nil =>
    show likeMatch (s ++ ['%']) [] = substrCI s []
    rw [likeMatch_trailing_pct s hs]
    cases s with
    | nil => rfl
    | cons p ps => rfl
  | cons c cs ih =>
    show (likeMatch (s ++ ['%']) (c :: cs) || tryTails (likeMatch (s ++ ['%'])) cs)
        = substrCI s (c :: cs)
    rw [show tryTails (likeMatch (s ++ ['%'])) cs = likeMatch ('%' :: (s ++ ['%'])) cs from rfl,
      ih, likeMatch_trailing_pct s hs]
    rfl

/-! ### Rust `String::replace` with the empty replacement

`volume_id.replace("file:///mnt/onboard/", "")` removes every
non-overlapping occurrence of the pattern, scanning left to right. The
skip counter keeps the recursion structural on the text. -/

def replaceAllAux (pat : List Char) : List Char → Nat → List Char
  | [], _ => []
  | c :: cs, 0 =>
    if pat.isPrefixOf (c :: cs) then replaceAllAux pat cs (pat.length - 1)
    else c :: replaceAllAux pat cs 0
  | _ :: cs, k + 1 => replaceAllAux pat cs k

/-- Rust `s.replace(pat, "")` for a non-empty pattern. -/
def replaceAll (s pat : String) : String :=
  ⟨replaceAllAux pat.data s.data 0⟩

/-! ### Ordering helpers (SQLite `ORDER BY` and Rust `sort_by`)

Rust compares `String`s by bytes and SQLite compares `TEXT` with the
default `BINARY` collation; both orders agree with code-point order, which
is what `charsLt` implements. SQLite sorts `NULL` before any text value. -/

def charsLt : List Char → List Char → Bool
  | [], [] => false
  | [], _ :: _ => true
  | _ :: _, [] => false
  | a :: as, b :: bs => if a < b then true else if b < a then false else charsLt as bs

def strLtB (s t : String) : Bool := charsLt s.data t.data

def optStrLt : Option String → Option String → Bool
  | none, none => false
  | none, some _ => true
  | some _, none => false
  | some a, some b => strLtB a b

/-- Insertion step of a stable insertion sort. -/
def insertBy {α : Type} (le : α → α → Bool) (a : α) : List α → List α
  | [] => [a]
  | b :: bs => if le a b then a :: b :: bs else b :: insertBy le a bs

/-- Stable insertion sort (models the stable sorts involved; ties keep
their relative order, which the claims never depend on). -/
def sortBy {α : Type} (le : α → α → Bool) : List α → List α
  | [] => []
  | a :: as => insertBy le a (sortBy le as)

/-! ### Extraction engine: data model (`src/db/kobo.rs`, `src/models/mod.rs`) -/

/-- A `Bookmark` table row, with the columns the query and its schema touch.
The `Color` column exists on the device and in the test schema but is never
selected by the extraction query. The `Annotation` column is named `annot`
here. -/
structure BookmarkRow where
  bookmarkId : String
  contentId : String
  volumeId : String
  text : Option String
  annot : Option String
  startContainerPath : Option String
  chapterProgress : Option Rat
  dateCreated : Option String
  color : Option String
deriving DecidableEq, Repr

/-- A `content` table row with the columns the query touches. -/
structure ContentRow where
  contentId : String
  bookTitle : Option String
  title : Option String
  attribution : Option String
  isbn : Option String
  publisher : Option String
  language : Option String
  dateLastRead : Option String
  contentType : Option Int
deriving DecidableEq, Repr

/-- A highlight, with the fields the extraction constructs in
`extract_books_with_highlights` (the `Annotation` field is named `annot`).
`models/mod.rs` additionally declares editor-state fields
(`personal_note`, `is_excluded`, `edited_text`) that the extraction never
sets. The REAL `ChapterProgress` is carried as a rational passthrough. -/
structure Highlight where
  id : String
  text : String
  annot : Option String
  chapterTitle : Option String
  chapterProgress : Option Rat
  containerPath : Option String
  dateCreated : String
  color : Option String
deriving DecidableEq, Repr

/-- A book entity (`models/mod.rs` `Book`, plus the `file_path` field that
`kobo.rs` assigns). -/
structure Book where
  contentId : String
  title : String
  author : String
  isbn : Option String
  publisher : Option String
  language : Option String
  dateLastRead : Option String
  description : Option String
  coverPath : Option String
  filePath : Option String
  highlights : List Highlight
deriving DecidableEq, Repr

/-- One row of the SQL result set, with exactly the columns the Rust
`query_map` closure reads. -/
structure JoinedRow where
  bookmarkId : String
  volumeId : String
  bookTitle : Option String
  chapterTitle : Option String
  attribution : Option String
  text : Option String
  annot : Option String
  containerPath : Option String
  chapterProgress : Option Rat
  dateCreated : Option String
  isbn : Option String
  publisher : Option String
  language : Option String
  dateLastRead : Option String
deriving DecidableEq, Repr

/-! ### Extraction engine: the SQL query -/

/-- `LEFT JOIN content c_book ON b.VolumeID = c_book.ContentID`. -/
def bookJoin (b : BookmarkRow) (c : ContentRow) : Bool :=
  b.volumeId == c.contentId

/-- `LEFT JOIN content c_chapter ON b.ContentID = c_chapter.ContentID`. -/
def chapJoin (b : BookmarkRow) (c : ContentRow) : Bool :=
  b.contentId == c.contentId

/-- `LEFT JOIN content c_toc ON c_toc.ContentType = 899 AND
c_toc.ContentID LIKE b.ContentID || '%'` (`NULL = 899` is not true). -/
def tocJoin (b : BookmarkRow) (c : ContentRow) : Bool :=
  (c.contentType == some 899) && likeMatch (b.contentId.data ++ ['%']) c.contentId.data

/-- The `CASE WHEN c_chapter.Title IS NOT NULL AND ... NOT LIKE ... THEN
c_chapter.Title ELSE NULL END` filename filter of the query. -/
def chapterCase (t : Option String) : Option String :=
  match t with
  | none => none
  | some s =>
    if !likeMatch "%.xhtml%".data s.data && !likeMatch "%.html%".data s.data
        && !likeMatch "%.htm%".data s.data && !likeMatch "%/%".data s.data
    then some s else none

/-- `WHERE b.Text IS NOT NULL AND b.Text != ''` (also the Rust-side
`Some(t) if !t.is_empty()` guard). -/
def textOk : Option String → Bool
  | some t => !(t == "")
  | none => false

/-- `LEFT JOIN` null-extension: no matching row contributes a single
all-`NULL` partner, otherwise each matching row contributes itself. -/
def optList {α : Type} : List α → List (Option α)
  | [] => [none]
  | l@(_ :: _) => l.map some

/-- One result-set row from a bookmark row and its three (optional) join
partners, computing the `COALESCE` book title, the `COALESCE`/`CASE`
chapter title, and the `c_book` metadata columns. -/
def mkJoined (b : BookmarkRow) (cb cc ct : Option ContentRow) : JoinedRow where
  bookmarkId := b.bookmarkId
  volumeId := b.volumeId
  bookTitle := (cb.bind (·.title)) <|> (cb.bind (·.bookTitle)) <|> (cc.bind (·.bookTitle))
      <|> (cc.bind (·.title)) <|> some "Unknown Title"
  chapterTitle := (ct.bind (·.title)) <|> chapterCase (cc.bind (·.title))
  attribution := cb.bind (·.attribution)
  text := b.text
  annot := b.annot
  containerPath := b.startContainerPath
  chapterProgress := b.chapterProgress
  dateCreated := b.dateCreated
  isbn := cb.bind (·.isbn)
  publisher := cb.bind (·.publisher)
  language := cb.bind (·.language)
  dateLastRead := cb.bind (·.dateLastRead)

/-- All result-set rows arising from one bookmark row: the three left
joins multiply out (each may fan out when several content rows match). -/
def joinedRowsFor (cts : List ContentRow) (b : BookmarkRow) : List JoinedRow :=
  if textOk b.text then
    (optList (cts.filter (bookJoin b))).flatMap fun cb =>
      (optList (cts.filter (chapJoin b))).flatMap fun cc =>
        (optList (cts.filter (tocJoin b))).map fun ct => mkJoined b cb cc ct
  else []

/-- The unordered result set of the query. -/
def joinRows (bms : List BookmarkRow) (cts : List ContentRow) : List JoinedRow :=
  bms.flatMap (joinedRowsFor cts)

/-- `ORDER BY BookTitle, b.DateCreated` (the first key is the coalesced
title and is never `NULL`; `NULL` dates sort first). -/
def rowLe (r1 r2 : JoinedRow) : Bool :=
  optStrLt r1.bookTitle r2.bookTitle ||
    (r1.bookTitle == r2.bookTitle &&
      (optStrLt r1.dateCreated r2.dateCreated || r1.dateCreated == r2.dateCreated))

/-- The ordered result set the Rust loop consumes. -/
def sortedRows (bms : List BookmarkRow) (cts : List ContentRow) : List JoinedRow :=
  sortBy rowLe (joinRows bms cts)

/-! ### Extraction engine: the Rust grouping loop -/

/-- The on-device file-URI prefix checked by `starts_with`. -/
def filePathPrefix : String := "file:///mnt/onboard/"

/-- `Book::new(volume_id, title, author)` plus the `file_path` assignment
performed inside `or_insert_with` (note: `String::replace` removes every
occurrence of the prefix, not only the leading one). -/
def initBook (r : JoinedRow) : Book where
  contentId := r.volumeId
  title := r.bookTitle.getD "Unknown Title"
  author := r.attribution.getD "Unknown Author"
  isbn := none
  publisher := none
  language := none
  dateLastRead := none
  description := none
  coverPath := none
  filePath :=
    if prefixCS filePathPrefix.data r.volumeId.data
    then some (replaceAll r.volumeId filePathPrefix) else none
  highlights := []

/-- The four *update metadata if available* statements: a field is set
only when it is still `None` and the row provides `Some`. -/
def fillBook (b : Book) (r : JoinedRow) : Book :=
  { b with
    isbn := if b.isbn.isNone && r.isbn.isSome then r.isbn else b.isbn
    publisher := if b.publisher.isNone && r.publisher.isSome then r.publisher else b.publisher
    language := if b.language.isNone && r.language.isSome then r.language else b.language
    dateLastRead :=
      if b.dateLastRead.isNone && r.dateLastRead.isSome then r.dateLastRead else b.dateLastRead }

/-- The `Highlight` literal built for each row; `color` is hard-coded to
`None` and the `DateCreated` default is the `"Unknown"` sentinel. -/
def mkHighlight (r : JoinedRow) : Highlight where
  id := r.bookmarkId
  text := r.text.getD ""
  annot := r.annot
  chapterTitle := r.chapterTitle
  chapterProgress := r.chapterProgress
  containerPath := r.containerPath
  dateCreated := r.dateCreated.getD "Unknown"
  color := none

/-- Metadata filling followed by pushing the row's highlight. -/
def applyRow (b : Book) (r : JoinedRow) : Book :=
  { fillBook b r with highlights := (fillBook b r).highlights ++ [mkHighlight r] }

/-- First-match lookup in the key/value list modelling `books_map`. -/
def lookupA : List (String × Book) → String → Option Book
  | [], _ => none
  | (k, v) :: t, key => if k = key then some v else lookupA t key

/-- Replace the value at the first matching key. -/
def updateA : List (String × Book) → String → Book → List (String × Book)
  | [], _, _ => []
  | (k, v) :: t, key, nv => if k = key then (k, nv) :: t else (k, v) :: updateA t key nv

/-- One iteration of the `for row in rows` loop: skip rows without text,
`entry(volume_id).or_insert_with(...)`, fill metadata, push highlight. -/
def step (m : List (String × Book)) (r : JoinedRow) : List (String × Book) :=
  if textOk r.text then
    match lookupA m r.volumeId with
    | some b => updateA m r.volumeId (applyRow b r)
    | none => m ++ [(r.volumeId, applyRow (initBook r) r)]
  else m

/-- `books.sort_by(|a, b| a.title.cmp(&b.title))`. -/
def bookLe (a b : Book) : Bool := !(strLtB b.title a.title)

/-- The whole of `extract_books_with_highlights` on an open database whose
two tables hold the given rows. -/
def extract (bms : List BookmarkRow) (cts : List ContentRow) : List Book :=
  sortBy bookLe (((sortedRows bms cts).foldl step []).map (fun kv => kv.2))

/-! ### Generic lemmas about the sort and the association list -/

/-- First non-`none` element, the shape of first-non-null-wins filling. -/
def firstSome {α : Type} : List (Option α) → Option α
  | [] => none
  | o :: os => o <|> firstSome os

theorem orElse_assoc {α : Type} (a b c : Option α) :
    ((a <|> b) <|> c) = (a <|> (b <|> c)) := by
  cases a <;> rfl

theorem mem_insertBy {α : Type} (le : α → α → Bool) (a x : α) :
    ∀ l : List α, (x ∈ insertBy le a l ↔ x = a ∨ x ∈ l) := by
  intro l
  induction l with
  | nil => simp [insertBy]
  | cons b bs ih =>
    by_cases h : le a b = true
    · simp [insertBy, h]
    · simp only [insertBy, if_neg h, List.mem_cons, ih]
      tauto

theorem mem_sortBy {α : Type} (le : α → α → Bool) (x : α) :
    ∀ l : List α, (x ∈ sortBy le l ↔ x ∈ l) := by
  intro l
  induction l with
  | nil => simp [sortBy]
  | cons a as ih => simp [sortBy, mem_insertBy, ih]

theorem countP_insertBy {α : Type} (le : α → α → Bool) (p : α → Bool) (a : α) :
    ∀ l : List α, (insertBy le a l).countP p = (a :: l).countP p := by
  intro l
  induction l with
  | nil => rfl
  | cons b bs ih =>
    by_cases h : le a b = true
    · simp [insertBy, h]
    · simp only [insertBy, if_neg h, List.countP_cons, ih]
      omega

theorem countP_sortBy {α : Type} (le : α → α → Bool) (p : α → Bool) :
    ∀ l : List α, (sortBy le l).countP p = l.countP p := by
  intro l
  induction l with
  | nil => rfl
  | cons a as ih => simp [sortBy, countP_insertBy, List.countP_cons, ih]

theorem summap_insertBy {α : Type} (le : α → α → Bool) (f : α → Nat) (a : α) :
    ∀ l : List α, ((insertBy le a l).map f).sum = f a + (l.map f).sum := by
  intro l
  induction l with
  | nil => simp [insertBy]
  | cons b bs ih =>
    by_cases h : le a b = true
    · simp [insertBy, h]
    · simp only [insertBy, if_neg h, List.map_cons, List.sum_cons, ih]
      omega

theorem summap_sortBy {α : Type} (le : α → α → Bool) (f : α → Nat) :
    ∀ l : List α, ((sortBy le l).map f).sum = (l.map f).sum := by
  intro l
  induction l with
  | nil => rfl
  | cons a as ih => simp [sortBy, summap_insertBy, ih]

theorem lookupA_append (m l : List (String × Book)) (k : String) :
    lookupA (m ++ l) k = (lookupA m k <|> lookupA l k) := by
  induction m with
  | nil => rfl
  | cons kv t ih =>
    obtain ⟨k0, v0⟩ := kv
    by_cases h : k0 = k
    · simp [lookupA, h]
    · simp [lookupA, h, ih]

theorem lookupA_updateA_self (m : List (String × Book)) (k : String) (b nv : Book) :
    lookupA m k = some b → lookupA (updateA m k nv) k = some nv := by
  induction m with
  | nil => intro h; cases h
  | cons kv t ih =>
    obtain ⟨k0, v0⟩ := kv
    by_cases h : k0 = k
    · intro _; simp [lookupA, updateA, h]
    · intro hl
      simp only [lookupA, updateA, if_neg h] at *
      exact ih hl

theorem lookupA_updateA_other (m : List (String × Book)) (k key : String) (nv : Book)
    (hne : k ≠ key) : lookupA (updateA m key nv) k = lookupA m k := by
  induction m with
  | nil => rfl
  | cons kv t ih =>
    obtain ⟨k0, v0⟩ := kv
    simp only [updateA]
    by_cases h : k0 = key
    · rw [if_pos h]
      have hk : ¬ k0 = k := by
        intro hh
        exact hne (by rw [← hh, h])
      simp only [lookupA, if_neg hk]
    · rw [if_neg h]
      simp only [lookupA]
      rw [ih]

theorem mem_updateA (m : List (String × Book)) (k : String) (nv : Book) (x : String × Book) :
    x ∈ updateA m k nv → x ∈ m ∨ x = (k, nv) := by
  induction m with
  | nil => intro h; cases h
  | cons kv t ih =>
    obtain ⟨k0, v0⟩ := kv
    simp only [updateA]
    by_cases h : k0 = k
    · rw [if_pos h]
      intro hx
      rcases List.mem_cons.mp hx with hx | hx
      · exact Or.inr (by rw [hx, h])
      · exact Or.inl (List.mem_cons.mpr (Or.inr hx))
    · rw [if_neg h]
      intro hx
      rcases List.mem_cons.mp hx with hx | hx
      · exact Or.inl (List.mem_cons.mpr (Or.inl hx))
      · rcases ih hx with hx2 | hx2
        · exact Or.inl (List.mem_cons.mpr (Or.inr hx2))
        · exact Or.inr hx2

theorem mapfst_updateA (m : List (String × Book)) (k : String) (nv : Book) :
    (updateA m k nv).map Prod.fst = m.map Prod.fst := by
  induction m with
  | nil => rfl
  | cons kv t ih =>
    obtain ⟨k0, v0⟩ := kv
    by_cases h : k0 = k
    · simp [updateA, h]
    · simp [updateA, h, ih]

theorem lookupA_eq_none_iff (m : List (String × Book)) (k : String) :
    lookupA m k = none ↔ k ∉ m.map Prod.fst := by
  induction m with
  | nil => simp [lookupA]
  | cons kv t ih =>
    obtain ⟨k0, v0⟩ := kv
    by_cases h : k0 = k
    · simp [lookupA, h]
    · simp [lookupA, h, ih, Ne.symm h]

theorem lookupA_of_mem (m : List (String × Book)) (k : String) (b : Book)
    (hnd : (m.map Prod.fst).Nodup) (hmem : (k, b) ∈ m) : lookupA m k = some b := by
  induction m with
  | nil => cases hmem
  | cons kv t ih =>
    obtain ⟨k0, v0⟩ := kv
    simp only [List.map_cons, List.nodup_cons] at hnd
    rcases List.mem_cons.mp hmem with h | h
    · obtain ⟨h1, h2⟩ := Prod.mk.inj h
      subst h1
      subst h2
      simp [lookupA]
    · by_cases hk : k0 = k
      · subst hk
        exact absurd (List.mem_map.mpr ⟨(k0, b), h, rfl⟩) hnd.1
      · simp only [lookupA, if_neg hk]
        exact ih hnd.2 h

theorem lookupA_mem (m : List (String × Book)) (k : String) (b : Book) :
    lookupA m k = some b → (k, b) ∈ m := by
  induction m with
  | nil => intro h; cases h
  | cons kv t ih =>
    obtain ⟨k0, v0⟩ := kv
    simp only [lookupA]
    by_cases h : k0 = k
    · rw [if_pos h]
      intro hv
      exact List.mem_cons.mpr (Or.inl (by rw [← h, Option.some.inj hv]))
    · rw [if_neg h]
      intro hv
      exact List.mem_cons.mpr (Or.inr (ih hv))

/-! ### Characterising the grouping fold -/

/-- The result-set rows that the loop attributes to one volume id. -/
def rowsFor (vid : String) (rows : List JoinedRow) : List JoinedRow :=
  rows.filter (fun r => textOk r.text && (r.volumeId == vid))

/-- The book the loop builds for a volume id, described directly: created
from the first row of its group, then every row of the group applied. -/
def groupBook (vid : String) (rows : List JoinedRow) : Option Book :=
  match rowsFor vid rows with
  | [] => none
  | r :: rs => some ((r :: rs).foldl applyRow (initBook r))

theorem lookupA_foldl_step (vid : String) :
    ∀ (rows : List JoinedRow) (m : List (String × Book)),
      lookupA (rows.foldl step m) vid =
        match lookupA m vid with
        | some b => some ((rowsFor vid rows).foldl applyRow b)
        | none => groupBook vid rows := by
  intro rows
  induction rows with
  | nil =>
    intro m
    cases h : lookupA m vid with
    | some b => simp [h, rowsFor, groupBook]
    | none => simp [h, rowsFor, groupBook]
  | cons r rows ih =>
    intro m
    rw [show (r :: rows).foldl step m = rows.foldl step (step m r) from rfl, ih (step m r)]
    by_cases ht : textOk r.text
    · by_cases hv : r.volumeId = vid
      · have hfil : rowsFor vid (r :: rows) = r :: rowsFor vid rows := by
          simp [rowsFor, List.filter_cons, ht, hv]
        cases hm : lookupA m vid with
        | some b =>
          have hms : lookupA m r.volumeId = some b := by rw [hv]; exact hm
          have hstep : step m r = updateA m r.volumeId (applyRow b r) := by
            simp only [step, if_pos ht, hms]
          rw [hstep]
          have : lookupA (updateA m r.volumeId (applyRow b r)) vid = some (applyRow b r) := by
            rw [hv] at *
            exact lookupA_updateA_self m vid b (applyRow b r) hm
          rw [this, hfil]
          rfl
        | none =>
          have hms : lookupA m r.volumeId = none := by rw [hv]; exact hm
          have hstep : step m r = m ++ [(r.volumeId, applyRow (initBook r) r)] := by
            simp only [step, if_pos ht, hms]
          rw [hstep]
          have : lookupA (m ++ [(r.volumeId, applyRow (initBook r) r)]) vid
              = some (applyRow (initBook r) r) := by
            rw [lookupA_append, hm]
            simp [lookupA, hv]
          rw [this]
          unfold groupBook
          rw [hfil]
          rfl
      · have hfil : rowsFor vid (r :: rows) = rowsFor vid rows := by
          simp only [rowsFor, List.filter_cons]
          have hc : (textOk r.text && (r.volumeId == vid)) = false := by
            simp [hv]
          rw [hc]
          simp
        have hlook : lookupA (step m r) vid = lookupA m vid := by
          cases hms : lookupA m r.volumeId with
          | some b =>
            have hstep : step m r = updateA m r.volumeId (applyRow b r) := by
              simp only [step, if_pos ht, hms]
            rw [hstep]
            exact lookupA_updateA_other m vid r.volumeId (applyRow b r) (fun hh => hv hh.symm)
          | none =>
            have hstep : step m r = m ++ [(r.volumeId, applyRow (initBook r) r)] := by
              simp only [step, if_pos ht, hms]
            rw [hstep, lookupA_append]
            have : lookupA [(r.volumeId, applyRow (initBook r) r)] vid = none := by
              simp [lookupA, hv]
            rw [this]
            cases lookupA m vid <;> rfl
        rw [hlook]
        cases hm : lookupA m vid with
        | some b => rw [hfil]
        | none =>
          unfold groupBook
          rw [hfil]
    · have hstep : step m r = m := by
        simp only [step, if_neg ht]
      have hfil : rowsFor vid (r :: rows) = rowsFor vid rows := by
        simp only [rowsFor, List.filter_cons]
        have hc : (textOk r.text && (r.volumeId == vid)) = false := by
          cases hx : textOk r.text
          · rfl
          · exact absurd hx ht
        rw [hc]
        simp
      rw [hstep]
      unfold groupBook
      rw [hfil]

/-- Structural entry invariant of the grouping map: the value's key is its
volume id and the file path is the prefix-conditional `replace` of it. -/
def goodEntry (kv : String × Book) : Prop :=
  kv.2.contentId = kv.1 ∧
  kv.2.filePath = (if prefixCS filePathPrefix.data kv.2.contentId.data
      then some (replaceAll kv.2.contentId filePathPrefix) else none)

theorem contentId_applyRow (b : Book) (r : JoinedRow) :
    (applyRow b r).contentId = b.contentId := rfl

theorem filePath_applyRow (b : Book) (r : JoinedRow) :
    (applyRow b r).filePath = b.filePath := rfl

theorem goodEntry_applyRow (k : String) (b : Book) (r : JoinedRow) :
    goodEntry (k, b) → goodEntry (k, applyRow b r) := by
  intro h
  exact ⟨h.1, h.2⟩

theorem goodEntry_new (r : JoinedRow) :
    goodEntry (r.volumeId, applyRow (initBook r) r) := by
  constructor
  · rfl
  · rfl

theorem goodEntry_foldl_step :
    ∀ (rows : List JoinedRow) (m : List (String × Book)),
      (∀ kv ∈ m, goodEntry kv) → ∀ kv ∈ rows.foldl step m, goodEntry kv := by
  intro rows
  induction rows with
  | nil => intro m hm; exact hm
  | cons r rows ih =>
    intro m hm
    apply ih (step m r)
    intro kv hkv
    by_cases ht : textOk r.text
    · simp only [step, if_pos ht] at hkv
      cases hms : lookupA m r.volumeId with
      | some b =>
        rw [hms] at hkv
        rcases mem_updateA m r.volumeId (applyRow b r) kv hkv with h | h
        · exact hm kv h
        · rw [h]
          exact goodEntry_applyRow _ _ _ (hm (r.volumeId, b) (lookupA_mem m r.volumeId b hms))
      | none =>
        rw [hms] at hkv
        rcases List.mem_append.mp hkv with h | h
        · exact hm kv h
        · rw [List.mem_singleton.mp h]
          exact goodEntry_new r
    · simp only [step, if_neg ht] at hkv
      exact hm kv hkv

theorem nodup_foldl_step :
    ∀ (rows : List JoinedRow) (m : List (String × Book)),
      (m.map Prod.fst).Nodup → ((rows.foldl step m).map Prod.fst).Nodup := by
  intro rows
  induction rows with
  | nil => intro m hm; exact hm
  | cons r rows ih =>
    intro m hm
    apply ih (step m r)
    by_cases ht : textOk r.text
    · simp only [step, if_pos ht]
      cases hms : lookupA m r.volumeId with
      | some b => rw [mapfst_updateA]; exact hm
      | none =>
        rw [List.map_append]
        have hnot : r.volumeId ∉ m.map Prod.fst := (lookupA_eq_none_iff m r.volumeId).mp hms
        simp [List.nodup_append, hm, hnot]
    · simp only [step, if_neg ht]
      exact hm

theorem countP_books_key (vid : String) :
    ∀ m : List (String × Book), (m.map Prod.fst).Nodup → (∀ kv ∈ m, goodEntry kv) →
      ((m.map Prod.snd).countP (fun b => b.contentId == vid))
        = (if lookupA m vid = none then 0 else 1) := by
  intro m
  induction m with
  | nil => intro _ _; simp [lookupA]
  | cons kv t ih =>
    obtain ⟨k0, v0⟩ := kv
    intro hnd hgood
    simp only [List.map_cons, List.nodup_cons] at hnd
    have hv0 : v0.contentId = k0 := (hgood (k0, v0) (List.mem_cons_self _ _)).1
    have htail : ∀ x ∈ t, goodEntry x := fun x hx => hgood x (List.mem_cons.mpr (Or.inr hx))
    by_cases h : k0 = vid
    · have hznone : lookupA t vid = none := by
        rw [lookupA_eq_none_iff]
        rw [← h]
        exact hnd.1
      have : (t.map Prod.snd).countP (fun b => b.contentId == vid) = 0 := by
        rw [ih hnd.2 htail, if_pos hznone]
      simp only [List.map_cons, List.countP_cons, this, lookupA, if_pos h]
      simp [hv0, h]
    · have : (v0.contentId == vid) = false := by
        simp [hv0, h]
      simp only [List.map_cons, List.countP_cons, this, lookupA, if_neg h]
      rw [ih hnd.2 htail]
      simp

/-! ### First-non-null metadata filling -/

theorem isbn_applyRow (b : Book) (r : JoinedRow) :
    (applyRow b r).isbn = (b.isbn <|> r.isbn) := by
  cases hb : b.isbn <;> cases hr : r.isbn <;> simp [applyRow, fillBook, hb, hr]

theorem publisher_applyRow (b : Book) (r : JoinedRow) :
    (applyRow b r).publisher = (b.publisher <|> r.publisher) := by
  cases hb : b.publisher <;> cases hr : r.publisher <;> simp [applyRow, fillBook, hb, hr]

theorem language_applyRow (b : Book) (r : JoinedRow) :
    (applyRow b r).language = (b.language <|> r.language) := by
  cases hb : b.language <;> cases hr : r.language <;> simp [applyRow, fillBook, hb, hr]

theorem dateLastRead_applyRow (b : Book) (r : JoinedRow) :
    (applyRow b r).dateLastRead = (b.dateLastRead <|> r.dateLastRead) := by
  cases hb : b.dateLastRead <;> cases hr : r.dateLastRead <;> simp [applyRow, fillBook, hb, hr]

theorem isbn_foldl : ∀ (rs : List JoinedRow) (b : Book),
    (rs.foldl applyRow b).isbn = (b.isbn <|> firstSome (rs.map (fun r => r.isbn))) := by
  intro rs
  induction rs with
  | nil => intro b; cases hb : b.isbn <;> simp [hb, firstSome]
  | cons r rs ih =>
    intro b
    show ((rs.foldl applyRow (applyRow b r)).isbn) = _
    rw [ih (applyRow b r), isbn_applyRow, orElse_assoc]
    rfl

theorem publisher_foldl : ∀ (rs : List JoinedRow) (b : Book),
    (rs.foldl applyRow b).publisher = (b.publisher <|> firstSome (rs.map (fun r => r.publisher))) := by
  intro rs
  induction rs with
  | nil => intro b; cases hb : b.publisher <;> simp [hb, firstSome]
  | cons r rs ih =>
    intro b
    show ((rs.foldl applyRow (applyRow b r)).publisher) = _
    rw [ih (applyRow b r), publisher_applyRow, orElse_assoc]
    rfl

theorem language_foldl : ∀ (rs : List JoinedRow) (b : Book),
    (rs.foldl applyRow b).language = (b.language <|> firstSome (rs.map (fun r => r.language))) := by
  intro rs
  induction rs with
  | nil => intro b; cases hb : b.language <;> simp [hb, firstSome]
  | cons r rs ih =>
    intro b
    show ((rs.foldl applyRow (applyRow b r)).language) = _
    rw [ih (applyRow b r), language_applyRow, orElse_assoc]
    rfl

theorem dateLastRead_foldl : ∀ (rs : List JoinedRow) (b : Book),
    (rs.foldl applyRow b).dateLastRead
      = (b.dateLastRead <|> firstSome (rs.map (fun r => r.dateLastRead))) := by
  intro rs
  induction rs with
  | nil => intro b; cases hb : b.dateLastRead <;> simp [hb, firstSome]
  | cons r rs ih =>
    intro b
    show ((rs.foldl applyRow (applyRow b r)).dateLastRead) = _
    rw [ih (applyRow b r), dateLastRead_applyRow, orElse_assoc]
    rfl

theorem groupBook_meta (vid : String) (rows : List JoinedRow) (b : Book) :
    groupBook vid rows = some b →
      b.isbn = firstSome ((rowsFor vid rows).map (fun r => r.isbn))
      ∧ b.publisher = firstSome ((rowsFor vid rows).map (fun r => r.publisher))
      ∧ b.language = firstSome ((rowsFor vid rows).map (fun r => r.language))
      ∧ b.dateLastRead = firstSome ((rowsFor vid rows).map (fun r => r.dateLastRead)) := by
  unfold groupBook
  cases hg : rowsFor vid rows with
  | nil => intro h; cases h
  | cons r rs =>
    intro h
    have hb := Option.some.inj h
    refine ⟨?_, ?_, ?_, ?_⟩
    · rw [← hb, isbn_foldl]; rfl
    · rw [← hb, publisher_foldl]; rfl
    · rw [← hb, language_foldl]; rfl
    · rw [← hb, dateLastRead_foldl]; rfl

/-! ### Concrete databases used by witnesses (the repository's own mock data) -/

def bmMock : BookmarkRow :=
  ⟨"hl1", "vol1!section1", "vol1", some "Test highlight text", some "My note",
    some "OEBPS/ch01.xhtml", none, some "2025-01-24", some "yellow"⟩

def ctBookMock : ContentRow :=
  ⟨"vol1", none, none, some "Test Author", some "123456789", some "Test Publisher",
    some "en", some "2025-01-24", some 6⟩

def ctChapMock : ContentRow :=
  ⟨"vol1!section1", some "Test Book", some "Chapter 1", some "Test Author", some "123456789",
    some "Test Publisher", some "en", some "2025-01-24", some 6⟩

def bkMock : Book :=
  ⟨"vol1", "Test Book", "Test Author", some "123456789", some "Test Publisher", some "en",
    some "2025-01-24", none, none, none,
    [⟨"hl1", "Test highlight text", some "My note", some "Chapter 1", none,
      some "OEBPS/ch01.xhtml", "2025-01-24", none⟩]⟩

def bmPath : BookmarkRow :=
  ⟨"hl1", "chapter1", "file:///mnt/onboard/Books/MyBook.epub", some "text", none, none, none,
    some "date", none⟩

def ctPath : ContentRow :=
  ⟨"file:///mnt/onboard/Books/MyBook.epub", some "Title", none, some "Author", none, none, none,
    none, some 6⟩

def bkPath : Book :=
  ⟨"file:///mnt/onboard/Books/MyBook.epub", "Title", "Author", none, none, none, none, none,
    none, some "Books/MyBook.epub", [⟨"hl1", "text", none, none, none, none, "date", none⟩]⟩

/-! ### Claim C6 -/

/-- C6: for every volume identifier, extraction produces exactly one Book
when some qualifying result row carries it (and none otherwise), and each
of the four optional metadata fields of that Book is the first non-null
value encountered in processing order — a non-null field is never
overwritten by any later value. -/
theorem book_grouping_invariant (bms : List BookmarkRow) (cts : List ContentRow) (vid : String) :
    ((extract bms cts).countP (fun b => b.contentId == vid)
        = if (rowsFor vid (sortedRows bms cts)).isEmpty then 0 else 1)
    ∧ ∀ b ∈ extract bms cts, b.contentId = vid →
        b.isbn = firstSome ((rowsFor vid (sortedRows bms cts)).map (fun r => r.isbn))
        ∧ b.publisher = firstSome ((rowsFor vid (sortedRows bms cts)).map (fun r => r.publisher))
        ∧ b.language = firstSome ((rowsFor vid (sortedRows bms cts)).map (fun r => r.language))
        ∧ b.dateLastRead
            = firstSome ((rowsFor vid (sortedRows bms cts)).map (fun r => r.dateLastRead)) := by
  have hnodup : (((sortedRows bms cts).foldl step []).map Prod.fst).Nodup :=
    nodup_foldl_step _ [] (by simp)
  have hgood : ∀ kv ∈ (sortedRows bms cts).foldl step [], goodEntry kv :=
    goodEntry_foldl_step _ [] (by intro kv h; cases h)
  have hlook : lookupA ((sortedRows bms cts).foldl step []) vid
      = groupBook vid (sortedRows bms cts) := by
    rw [lookupA_foldl_step vid _ []]
    rfl
  constructor
  · unfold extract
    rw [countP_sortBy]
    have hmapeq : (((sortedRows bms cts).foldl step []).map (fun kv => kv.2))
        = ((sortedRows bms cts).foldl step []).map Prod.snd := rfl
    rw [hmapeq, countP_books_key vid _ hnodup hgood, hlook]
    cases hg : rowsFor vid (sortedRows bms cts) with
    | nil =>
      unfold groupBook
      rw [hg]
      simp
    | cons r rs =>
      unfold groupBook
      rw [hg]
      simp
  · intro b hb hcid
    unfold extract at hb
    have hb2 := (mem_sortBy bookLe b _).mp hb
    obtain ⟨kv, hkv, hkv2⟩ := List.mem_map.mp hb2
    have hgkv := hgood kv hkv
    have hkey : kv.1 = vid := by
      rw [← hgkv.1, hkv2]
      exact hcid
    have hmem2 : (vid, b) ∈ (sortedRows bms cts).foldl step [] := by
      rw [← hkey, ← hkv2]
      exact hkv
    have hl2 : lookupA ((sortedRows bms cts).foldl step []) vid = some b :=
      lookupA_of_mem _ _ _ hnodup hmem2
    rw [hlook] at hl2
    exact groupBook_meta vid _ b hl2

/-- Witness for C6: at the repository's mock database the unique extracted
book is `bkMock`, and the theorem instantiates on it. -/
theorem book_grouping_invariant_witness :
    bkMock ∈ extract [bmMock] [ctBookMock, ctChapMock]
    ∧ bkMock.isbn
        = firstSome ((rowsFor "vol1" (sortedRows [bmMock] [ctBookMock, ctChapMock])).map
            (fun r => r.isbn)) := by
  have hm : bkMock ∈ extract [bmMock] [ctBookMock, ctChapMock] := by decide
  exact ⟨hm,
    ((book_grouping_invariant [bmMock] [ctBookMock, ctChapMock] "vol1").2 bkMock hm
      (by decide)).1⟩

/-! ### Claim C4 -/

/-- The claim's reading of the path derivation: remove only the *leading*
prefix occurrence, keeping the remainder unchanged. -/
def specStripPrefix (s pre : String) : Option String :=
  if prefixCS pre.data s.data then some ⟨s.data.drop pre.data.length⟩ else none

def bmDouble : BookmarkRow :=
  ⟨"hl1", "ch1", "file:///mnt/onboard/file:///mnt/onboard/a.epub", some "x", none, none, none,
    some "d", none⟩

/-- C4 counterexample: on a volume identifier that contains the prefix
twice, the code's `String::replace` removes both occurrences, so the file
path differs from the claimed leading-prefix strip. -/
theorem filePath_strip_cex :
    (extract [bmDouble] []).map (fun b => b.filePath) = [some "a.epub"]
    ∧ specStripPrefix "file:///mnt/onboard/file:///mnt/onboard/a.epub" filePathPrefix
        = some "file:///mnt/onboard/a.epub"
    ∧ (some "a.epub" : Option String) ≠ some "file:///mnt/onboard/a.epub" := by decide

/-- C4 amended: for every extracted Book, if its volume identifier starts
with `file:///mnt/onboard/` the file path is the identifier with *every*
occurrence of that prefix removed (`String::replace` semantics; identical
to leading-prefix stripping whenever the prefix occurs only at the start);
otherwise the file path is absent. -/
theorem filePath_derivation (bms : List BookmarkRow) (cts : List ContentRow) :
    ∀ b ∈ extract bms cts,
      b.filePath = if prefixCS filePathPrefix.data b.contentId.data
          then some (replaceAll b.contentId filePathPrefix) else none := by
  intro b hb
  unfold extract at hb
  have hb2 := (mem_sortBy bookLe b _).mp hb
  obtain ⟨kv, hkv, hkv2⟩ := List.mem_map.mp hb2
  have hgkv := goodEntry_foldl_step _ [] (by intro kv h; cases h) kv hkv
  rw [← hkv2]
  exact hgkv.2

/-- Witness for the amended C4 at a concrete on-device volume identifier. -/
theorem filePath_derivation_witness :
    bkPath ∈ extract [bmPath] [ctPath]
    ∧ bkPath.filePath = (if prefixCS filePathPrefix.data bkPath.contentId.data
        then some (replaceAll bkPath.contentId filePathPrefix) else none) := by
  have hm : bkPath ∈ extract [bmPath] [ctPath] := by decide
  exact ⟨hm, filePath_derivation [bmPath] [ctPath] bkPath hm⟩

/-! ### Counting and locating the produced highlights -/

/-- Highlights of one book carrying a given bookmark identifier. -/
def hlCount (hid : String) (b : Book) : Nat :=
  b.highlights.countP (fun h => h.id == hid)

/-- Highlights carrying a given bookmark identifier over a book list. -/
def totalHl (hid : String) (books : List Book) : Nat :=
  (books.map (hlCount hid)).sum

/-- The same count over the grouping map. -/
def totalHlM (hid : String) (m : List (String × Book)) : Nat :=
  (m.map (fun kv => hlCount hid kv.2)).sum

/-- Every highlight of every book of the grouping map. -/
def allHl (m : List (String × Book)) : List Highlight :=
  m.flatMap (fun kv => kv.2.highlights)

theorem highlights_applyRow (b : Book) (r : JoinedRow) :
    (applyRow b r).highlights = b.highlights ++ [mkHighlight r] := rfl

theorem hlCount_applyRow (hid : String) (b : Book) (r : JoinedRow) :
    hlCount hid (applyRow b r) = hlCount hid b + (if r.bookmarkId == hid then 1 else 0) := by
  simp [hlCount, highlights_applyRow, List.countP_append, List.countP_cons, mkHighlight]

theorem totalHlM_updateA (hid : String) :
    ∀ (m : List (String × Book)) (k : String) (b v : Book), lookupA m k = some b →
      totalHlM hid (updateA m k v) + hlCount hid b = totalHlM hid m + hlCount hid v := by
  intro m
  induction m with
  | nil => intro k b v h; cases h
  | cons kv t ih =>
    obtain ⟨k0, v0⟩ := kv
    intro k b v h
    by_cases hk : k0 = k
    · simp only [lookupA, if_pos hk] at h
      have hb : v0 = b := Option.some.inj h
      simp only [updateA, if_pos hk, totalHlM, List.map_cons, List.sum_cons]
      rw [hb]
      omega
    · simp only [lookupA, if_neg hk] at h
      simp only [updateA, if_neg hk, totalHlM, List.map_cons, List.sum_cons]
      have h2 := ih k b v h
      simp only [totalHlM] at h2
      omega

theorem totalHlM_append (hid : String) (m l : List (String × Book)) :
    totalHlM hid (m ++ l) = totalHlM hid m + totalHlM hid l := by
  simp [totalHlM, List.map_append, List.sum_append]

theorem totalHlM_step (hid : String) (m : List (String × Book)) (r : JoinedRow) :
    totalHlM hid (step m r)
      = totalHlM hid m + (if textOk r.text && (r.bookmarkId == hid) then 1 else 0) := by
  by_cases ht : textOk r.text
  · have hcond : (textOk r.text && (r.bookmarkId == hid)) = (r.bookmarkId == hid) := by
      rw [ht]; simp
    rw [hcond]
    cases hms : lookupA m r.volumeId with
    | some b =>
      have hstep : step m r = updateA m r.volumeId (applyRow b r) := by
        simp only [step, if_pos ht, hms]
      rw [hstep]
      have h1 := totalHlM_updateA hid m r.volumeId b (applyRow b r) hms
      rw [hlCount_applyRow] at h1
      omega
    | none =>
      have hstep : step m r = m ++ [(r.volumeId, applyRow (initBook r) r)] := by
        simp only [step, if_pos ht, hms]
      rw [hstep, totalHlM_append]
      have h2 : totalHlM hid [(r.volumeId, applyRow (initBook r) r)]
          = (if r.bookmarkId == hid then 1 else 0) := by
        show hlCount hid (applyRow (initBook r) r) + 0 = _
        rw [hlCount_applyRow]
        show hlCount hid (initBook r) + _ + 0 = _
        rw [show hlCount hid (initBook r) = 0 from rfl]
        omega
      rw [h2]
  · have hcond : (textOk r.text && (r.bookmarkId == hid)) = false := by
      cases hx : textOk r.text
      · rfl
      · exact absurd hx ht
    simp only [step, if_neg ht, hcond]
    simp

theorem totalHlM_foldl (hid : String) :
    ∀ (rows : List JoinedRow) (m : List (String × Book)),
      totalHlM hid (rows.foldl step m)
        = totalHlM hid m + rows.countP (fun r => textOk r.text && (r.bookmarkId == hid)) := by
  intro rows
  induction rows with
  | nil => intro m; simp
  | cons r rows ih =>
    intro m
    rw [show (r :: rows).foldl step m = rows.foldl step (step m r) from rfl, ih (step m r),
      totalHlM_step, List.countP_cons]
    omega

theorem allHl_updateA_sub (m : List (String × Book)) (k : String) (v : Book) (h : Highlight) :
    h ∈ allHl (updateA m k v) → h ∈ allHl m ∨ h ∈ v.highlights := by
  intro hh
  obtain ⟨kv, hkv, hkm⟩ := List.mem_flatMap.mp hh
  rcases mem_updateA m k v kv hkv with hm | he
  · exact Or.inl (List.mem_flatMap.mpr ⟨kv, hm, hkm⟩)
  · right
    rw [he] at hkm
    exact hkm

theorem step_hl_sub (m : List (String × Book)) (r : JoinedRow) (h : Highlight) :
    h ∈ allHl (step m r) → h ∈ allHl m ∨ (textOk r.text = true ∧ h = mkHighlight r) := by
  by_cases ht : textOk r.text
  · simp only [step, if_pos ht]
    cases hms : lookupA m r.volumeId with
    | some b =>
      intro hh
      rcases allHl_updateA_sub m r.volumeId (applyRow b r) h hh with hm | hv
      · exact Or.inl hm
      · rw [highlights_applyRow] at hv
        rcases List.mem_append.mp hv with hv | hv
        · exact Or.inl (List.mem_flatMap.mpr ⟨(r.volumeId, b), lookupA_mem m _ b hms, hv⟩)
        · exact Or.inr ⟨ht, List.mem_singleton.mp hv⟩
    | none =>
      intro hh
      unfold allHl at hh
      rw [List.flatMap_append] at hh
      rcases List.mem_append.mp hh with hm | hv
      · exact Or.inl hm
      · simp only [List.flatMap_cons, List.flatMap_nil, List.append_nil] at hv
        rw [highlights_applyRow] at hv
        rw [show (initBook r).highlights = [] from rfl] at hv
        simp only [List.nil_append, List.mem_singleton] at hv
        exact Or.inr ⟨ht, hv⟩
  · simp only [step, if_neg ht]
    exact fun hh => Or.inl hh

theorem foldl_hl_sub :
    ∀ (rows : List JoinedRow) (m : List (String × Book)) (h : Highlight),
      h ∈ allHl (rows.foldl step m) →
        h ∈ allHl m ∨ ∃ r ∈ rows, textOk r.text = true ∧ h = mkHighlight r := by
  intro rows
  induction rows with
  | nil => intro m h hh; exact Or.inl hh
  | cons r rows ih =>
    intro m h hh
    rcases ih (step m r) h hh with hm | ⟨r2, hr2, hp⟩
    · rcases step_hl_sub m r h hm with hm2 | hp
      · exact Or.inl hm2
      · exact Or.inr ⟨r, List.mem_cons_self r rows, hp⟩
    · exact Or.inr ⟨r2, List.mem_cons.mpr (Or.inr hr2), hp⟩

/-! ### Counting the result-set rows of the join -/

theorem countP_flatMap {α β : Type} (f : α → List β) (p : β → Bool) :
    ∀ l : List α, ((l.flatMap f).countP p) = (l.map (fun a => (f a).countP p)).sum := by
  intro l
  induction l with
  | nil => rfl
  | cons a t ih => simp [List.flatMap_cons, List.countP_append, ih]

theorem countP_eq_if_const {α : Type} (p : α → Bool) (v : Bool) :
    ∀ l : List α, (∀ x ∈ l, p x = v) → l.countP p = if v then l.length else 0 := by
  intro l
  induction l with
  | nil => intro _; simp
  | cons a t ih =>
    intro hx
    rw [List.countP_cons, ih (fun x h => hx x (List.mem_cons.mpr (Or.inr h))),
      hx a (List.mem_cons_self a t)]
    cases v <;> simp [List.length_cons]

theorem length_flatMap_const {α β : Type} (f : α → List β) (k : Nat) :
    ∀ l : List α, (∀ a ∈ l, (f a).length = k) → (l.flatMap f).length = l.length * k := by
  intro l
  induction l with
  | nil => intro _; simp
  | cons a t ih =>
    intro hx
    rw [List.flatMap_cons, List.length_append, ih (fun x h => hx x (List.mem_cons.mpr (Or.inr h))),
      hx a (List.mem_cons_self a t), List.length_cons]
    ring

theorem optList_length {α : Type} (l : List α) : (optList l).length = max 1 l.length := by
  cases l with
  | nil => rfl
  | cons a t =>
    show (List.map some (a :: t)).length = max 1 (a :: t).length
    rw [List.length_map]
    exact (Nat.max_eq_right (by simp)).symm

theorem joinedRowsFor_mem (cts : List ContentRow) (b : BookmarkRow) (r : JoinedRow) :
    r ∈ joinedRowsFor cts b →
      r.bookmarkId = b.bookmarkId ∧ r.text = b.text
      ∧ ∃ cb cc ct, cb ∈ optList (cts.filter (bookJoin b))
          ∧ cc ∈ optList (cts.filter (chapJoin b))
          ∧ ct ∈ optList (cts.filter (tocJoin b))
          ∧ r = mkJoined b cb cc ct := by
  unfold joinedRowsFor
  by_cases ht : textOk b.text
  · rw [if_pos ht]
    intro h
    obtain ⟨cb, hcb, h2⟩ := List.mem_flatMap.mp h
    obtain ⟨cc, hcc, h3⟩ := List.mem_flatMap.mp h2
    obtain ⟨ct, hct, h4⟩ := List.mem_map.mp h3
    refine ⟨by rw [← h4]; rfl, by rw [← h4]; rfl, cb, cc, ct, hcb, hcc, hct, h4.symm⟩
  · rw [if_neg ht]
    intro h
    cases h

theorem joinedRowsFor_length (cts : List ContentRow) (b : BookmarkRow)
    (ht : textOk b.text = true) :
    (joinedRowsFor cts b).length
      = (optList (cts.filter (bookJoin b))).length *
        ((optList (cts.filter (chapJoin b))).length
          * (optList (cts.filter (tocJoin b))).length) := by
  unfold joinedRowsFor
  rw [if_pos ht]
  apply length_flatMap_const
  intro cb _
  apply length_flatMap_const
  intro cc _
  rw [List.length_map]

theorem filter_length_le_one (p : ContentRow → Bool) (x : String)
    (hp : ∀ c, p c = true → c.contentId = x) :
    ∀ l : List ContentRow, (l.map (fun c => c.contentId)).Nodup → (l.filter p).length ≤ 1 := by
  intro l
  induction l with
  | nil => intro _; simp
  | cons c t ih =>
    intro hnd
    simp only [List.map_cons, List.nodup_cons] at hnd
    rw [List.filter_cons]
    by_cases hc : p c = true
    · rw [if_pos hc]
      have ht0 : t.filter p = [] := by
        apply List.eq_nil_iff_forall_not_mem.mpr
        intro y hy
        have hy2 := List.mem_filter.mp hy
        have hyx : y.contentId = x := hp y hy2.2
        exact hnd.1 (List.mem_map.mpr ⟨y, hy2.1, by rw [hyx, ← hp c hc]⟩)
      rw [ht0]
      simp
    · rw [if_neg hc]
      exact ih hnd.2

theorem countP_joinedRowsFor_ne (cts : List ContentRow) (b : BookmarkRow) (hid : String)
    (hne : b.bookmarkId ≠ hid) :
    (joinedRowsFor cts b).countP (fun r => textOk r.text && (r.bookmarkId == hid)) = 0 := by
  rw [countP_eq_if_const _ false]
  · simp
  · intro x hx
    have hmem := joinedRowsFor_mem cts b x hx
    rw [hmem.1]
    have : (b.bookmarkId == hid) = false := by
      simp [hne]
    rw [this]
    simp

theorem sum_single (cts : List ContentRow) (hid : String) :
    ∀ bms : List BookmarkRow, (bms.map (fun b => b.bookmarkId)).Nodup →
      ∀ b0 ∈ bms, b0.bookmarkId = hid →
      (bms.map (fun b => (joinedRowsFor cts b).countP
          (fun r => textOk r.text && (r.bookmarkId == hid)))).sum
        = (joinedRowsFor cts b0).countP (fun r => textOk r.text && (r.bookmarkId == hid)) := by
  intro bms
  induction bms with
  | nil => intro _ b0 h; cases h
  | cons b bs ih =>
    intro hnd b0 hb0 hb0id
    simp only [List.map_cons, List.nodup_cons] at hnd
    rcases List.mem_cons.mp hb0 with hb | hb
    · subst hb
      have htail : ∀ x ∈ bs, (joinedRowsFor cts x).countP
          (fun r => textOk r.text && (r.bookmarkId == hid)) = 0 := by
        intro x hx
        apply countP_joinedRowsFor_ne
        intro hcx
        exact hnd.1 (List.mem_map.mpr ⟨x, hx, by rw [hcx, hb0id]⟩)
      have hsum0 : (bs.map (fun b => (joinedRowsFor cts b).countP
          (fun r => textOk r.text && (r.bookmarkId == hid)))).sum = 0 := by
        apply List.sum_eq_zero
        intro y hy
        obtain ⟨x, hx, hxy⟩ := List.mem_map.mp hy
        rw [← hxy]
        exact htail x hx
      rw [List.map_cons, List.sum_cons, hsum0]
      omega
    · have hbne : b.bookmarkId ≠ hid := by
        intro hc
        exact hnd.1 (List.mem_map.mpr ⟨b0, hb, by rw [hb0id, ← hc]⟩)
      rw [List.map_cons, List.sum_cons, countP_joinedRowsFor_ne cts b hid hbne,
        ih hnd.2 b0 hb hb0id]
      omega

/-! ### Claim C5 -/

def bmC5 : BookmarkRow :=
  ⟨"hl1", "vol1!ch1", "vol1", some "Hello", none, none, none, some "d", none⟩

def ctC5book : ContentRow :=
  ⟨"vol1", some "B", some "B", some "A", none, none, none, none, some 6⟩

def ctC5toc1 : ContentRow :=
  ⟨"vol1!ch1-1", some "B", some "T1", none, none, none, none, none, some 899⟩

def ctC5toc2 : ContentRow :=
  ⟨"vol1!ch1-2", some "B", some "T2", none, none, none, none, none, some 899⟩

/-- C5 counterexample: with two TOC-type rows whose content ids extend the
bookmark's item id, the `LIKE`-prefix left join fans out and the single
bookmark row yields two Highlights with the same bookmark identifier. -/
theorem highlight_identity_cex :
    totalHl "hl1" (extract [bmC5] [ctC5book, ctC5toc1, ctC5toc2]) = 2
    ∧ totalHl "hl1" (extract [bmC5] [ctC5book, ctC5toc1, ctC5toc2]) ≠ 1 := by decide

/-- C5 amended: under device-unique bookmark and content identifiers, a
bookmark row with non-empty text yields `max 1 k` Highlights carrying its
bookmark identifier, where `k` counts the TOC-type content rows matching
the item-identifier `LIKE` prefix — exactly one when `k ≤ 1`, and `k`
duplicates when several TOC rows match. -/
theorem highlight_multiplicity (bms : List BookmarkRow) (cts : List ContentRow)
    (b0 : BookmarkRow) (hb0 : b0 ∈ bms)
    (hnd : (bms.map (fun b => b.bookmarkId)).Nodup)
    (ht : textOk b0.text = true)
    (hcd : (cts.map (fun c => c.contentId)).Nodup) :
    totalHl b0.bookmarkId (extract bms cts) = max 1 (cts.filter (tocJoin b0)).length := by
  have h1 : totalHl b0.bookmarkId (extract bms cts)
      = totalHlM b0.bookmarkId ((sortedRows bms cts).foldl step []) := by
    unfold extract totalHl
    rw [summap_sortBy, List.map_map]
    rfl
  rw [h1, totalHlM_foldl,
    show totalHlM b0.bookmarkId ([] : List (String × Book)) = 0 from rfl]
  unfold sortedRows
  rw [countP_sortBy]
  unfold joinRows
  rw [countP_flatMap, sum_single cts b0.bookmarkId bms hnd b0 hb0 rfl]
  have h5 : (joinedRowsFor cts b0).countP
      (fun r => textOk r.text && (r.bookmarkId == b0.bookmarkId))
      = (joinedRowsFor cts b0).length := by
    rw [countP_eq_if_const _ true]
    · simp
    · intro x hx
      obtain ⟨hid2, htx, _⟩ := joinedRowsFor_mem cts b0 x hx
      rw [hid2, htx, ht]
      simp
  rw [h5, joinedRowsFor_length cts b0 ht]
  have hA : (optList (cts.filter (bookJoin b0))).length = 1 := by
    rw [optList_length]
    apply Nat.max_eq_left
    apply filter_length_le_one (bookJoin b0) b0.volumeId ?_ cts hcd
    intro c hc
    unfold bookJoin at hc
    exact (beq_iff_eq.mp hc).symm
  have hB : (optList (cts.filter (chapJoin b0))).length = 1 := by
    rw [optList_length]
    apply Nat.max_eq_left
    apply filter_length_le_one (chapJoin b0) b0.contentId ?_ cts hcd
    intro c hc
    unfold chapJoin at hc
    exact (beq_iff_eq.mp hc).symm
  rw [hA, hB, optList_length]
  simp

/-- Witness for the amended C5 at the two-TOC concrete database (the count
is `max 1 2 = 2`). -/
theorem highlight_multiplicity_witness :
    totalHl bmC5.bookmarkId (extract [bmC5] [ctC5book, ctC5toc1, ctC5toc2])
      = max 1 (([ctC5book, ctC5toc1, ctC5toc2].filter (tocJoin bmC5)).length) :=
  highlight_multiplicity [bmC5] [ctC5book, ctC5toc1, ctC5toc2] bmC5
    (by decide) (by decide) (by decide) (by decide)

/-! ### Claim C10 -/

/-- C10: every highlight the extraction produces has `color = None`, even
though the `Bookmark` rows carry a `Color` column — and the extraction is
entirely insensitive to the colors stored in the database (the column is
never read). -/
theorem highlight_color_never_read (bms : List BookmarkRow) (cts : List ContentRow)
    (f : BookmarkRow → Option String) :
    (∀ b ∈ extract bms cts, ∀ h ∈ b.highlights, h.color = none)
    ∧ extract (bms.map (fun b => { b with color := f b })) cts = extract bms cts := by
  constructor
  · intro b hb h hh
    unfold extract at hb
    have hb2 := (mem_sortBy bookLe b _).mp hb
    obtain ⟨kv, hkv, hkv2⟩ := List.mem_map.mp hb2
    have hhm : h ∈ allHl ((sortedRows bms cts).foldl step []) :=
      List.mem_flatMap.mpr ⟨kv, hkv, by rw [hkv2]; exact hh⟩
    rcases foldl_hl_sub _ [] h hhm with hc | ⟨r, _, _, hmk⟩
    · exact absurd hc (List.not_mem_nil h)
    · rw [hmk]
      rfl
  · have hjoin : joinRows (bms.map (fun b => { b with color := f b })) cts
        = joinRows bms cts := by
      unfold joinRows
      induction bms with
      | nil => rfl
      | cons b bs ih =>
        rw [List.map_cons, List.flatMap_cons, List.flatMap_cons, ih]
        rfl
    unfold extract sortedRows
    rw [hjoin]

def hlMock : Highlight :=
  ⟨"hl1", "Test highlight text", some "My note", some "Chapter 1", none,
    some "OEBPS/ch01.xhtml", "2025-01-24", none⟩

/-- Witness for C10: the mock bookmark row stores `Color = 'yellow'`, yet
the produced highlight's color is `None`. -/
theorem highlight_color_never_read_witness : hlMock.color = none :=
  (highlight_color_never_read [bmMock] [ctBookMock, ctChapMock] (fun _ => some "red")).1
    bkMock (by decide) hlMock (by decide)

/-! ### Claim C3 -/

/-- Suffix test, spec side: the claim says "does not END in". -/
def suffixCS (suf s : List Char) : Bool := prefixCS suf.reverse s.reverse

def bmFn : BookmarkRow :=
  ⟨"hl1", "vol3!c1", "vol3", some "Hi", none, none, none, some "d", none⟩

def ctFnBook : ContentRow :=
  ⟨"vol3", some "G", some "G", some "A", none, none, none, none, some 6⟩

def ctFnChap : ContentRow :=
  ⟨"vol3!c1", some "G", some "About .html files", some "A", none, none, none, none, some 9⟩

/-- C3 counterexample: the item title "About .html files" contains no "/"
and does not end in ".xhtml"/".html"/".htm", so the claim makes it the
chapter title; the code's `NOT LIKE '%.html%'` CONTAINS filter nulls it. -/
theorem chapter_title_filter_cex :
    (substrCS "/".data "About .html files".data = false
      ∧ suffixCS ".xhtml".data "About .html files".data = false
      ∧ suffixCS ".html".data "About .html files".data = false
      ∧ suffixCS ".htm".data "About .html files".data = false)
    ∧ (extract [bmFn] [ctFnBook, ctFnChap]).map
        (fun b => b.highlights.map (fun h => h.chapterTitle)) = [[none]] := by decide

/-- C3 amended: for a bookmark row with no matching TOC-type content row
(and device-unique identifiers), the item-level content row's title becomes
the highlight's chapter title if and only if it CONTAINS none of ".xhtml",
".html", ".htm" (ASCII-case-insensitively, hence also none as a suffix) and
no "/"; otherwise the chapter title is null. -/
theorem chapter_title_filter (bms : List BookmarkRow) (cts : List ContentRow) (b0 : BookmarkRow)
    (hb0 : b0 ∈ bms)
    (hnd : (bms.map (fun b => b.bookmarkId)).Nodup)
    (hcd : (cts.map (fun c => c.contentId)).Nodup)
    (htoc : cts.filter (tocJoin b0) = []) :
    ∀ b ∈ extract bms cts, ∀ h ∈ b.highlights, h.id = b0.bookmarkId →
      h.chapterTitle =
        match ((cts.filter (chapJoin b0)).head?).bind (fun c => c.title) with
        | none => none
        | some t =>
          if !substrCI ".xhtml".data t.data && !substrCI ".html".data t.data
              && !substrCI ".htm".data t.data && !substrCI "/".data t.data
          then some t else none := by
  intro b hb h hh hid
  unfold extract at hb
  have hb2 := (mem_sortBy bookLe b _).mp hb
  obtain ⟨kv, hkv, hkv2⟩ := List.mem_map.mp hb2
  have hhm : h ∈ allHl ((sortedRows bms cts).foldl step []) :=
    List.mem_flatMap.mpr ⟨kv, hkv, by rw [hkv2]; exact hh⟩
  rcases foldl_hl_sub _ [] h hhm with hc | ⟨r, hr, _, hmk⟩
  · exact absurd hc (List.not_mem_nil h)
  have hr2 : r ∈ joinRows bms cts := by
    unfold sortedRows at hr
    exact (mem_sortBy rowLe r _).mp hr
  obtain ⟨bm, hbm, hbr⟩ := List.mem_flatMap.mp hr2
  obtain ⟨hbid, _, cb, cc, ct, hcb, hcc, hct, hreq⟩ := joinedRowsFor_mem cts bm r hbr
  have hideq : bm.bookmarkId = b0.bookmarkId := by
    rw [← hbid]
    rw [hmk] at hid
    exact hid
  have hbmb0 : bm = b0 :=
    List.inj_on_of_nodup_map hnd hbm hb0 hideq
  rw [hbmb0] at hcb hcc hct hreq
  rw [htoc] at hct
  have hctnone : ct = none := by
    simpa [optList] using hct
  subst hctnone
  rw [hmk, hreq]
  cases hfil : cts.filter (chapJoin b0) with
  | nil =>
    rw [hfil] at hcc
    have hccn : cc = none := by
      simpa [optList] using hcc
    subst hccn
    rfl
  | cons c rest =>
    have hrest : rest = [] := by
      have hlen := filter_length_le_one (chapJoin b0) b0.contentId
        (fun c2 hc2 => by
          unfold chapJoin at hc2
          exact (beq_iff_eq.mp hc2).symm) cts hcd
      rw [hfil] at hlen
      simpa using hlen
    subst hrest
    rw [hfil] at hcc
    have hcs : cc = some c := by
      simpa [optList] using hcc
    subst hcs
    cases hct2 : c.title with
    | none =>
      show chapterCase ((some c).bind (fun c => c.title)) = _
      rw [show (some c).bind (fun c => c.title) = c.title from rfl, hct2,
        show ((c :: ([] : List ContentRow)).head?).bind (fun c => c.title)
          = c.title from rfl, hct2]
      rfl
    | some t =>
      have e1 : likeMatch "%.xhtml%".data t.data = substrCI ".xhtml".data t.data := by
        rw [show ("%.xhtml%".data : List Char) = '%' :: (".xhtml".data ++ ['%']) from rfl]
        exact likeMatch_pct_wrap _ (by decide) t.data
      have e2 : likeMatch "%.html%".data t.data = substrCI ".html".data t.data := by
        rw [show ("%.html%".data : List Char) = '%' :: (".html".data ++ ['%']) from rfl]
        exact likeMatch_pct_wrap _ (by decide) t.data
      have e3 : likeMatch "%.htm%".data t.data = substrCI ".htm".data t.data := by
        rw [show ("%.htm%".data : List Char) = '%' :: (".htm".data ++ ['%']) from rfl]
        exact likeMatch_pct_wrap _ (by decide) t.data
      have e4 : likeMatch "%/%".data t.data = substrCI "/".data t.data := by
        rw [show ("%/%".data : List Char) = '%' :: ("/".data ++ ['%']) from rfl]
        exact likeMatch_pct_wrap _ (by decide) t.data
      show chapterCase ((some c).bind (fun c => c.title)) = _
      rw [show (some c).bind (fun c => c.title) = c.title from rfl, hct2,
        show ((c :: ([] : List ContentRow)).head?).bind (fun c => c.title)
          = c.title from rfl, hct2]
      show (if (!likeMatch "%.xhtml%".data t.data && !likeMatch "%.html%".data t.data
            && !likeMatch "%.htm%".data t.data && !likeMatch "%/%".data t.data)
          then some t else none)
        = (if (!substrCI ".xhtml".data t.data && !substrCI ".html".data t.data
            && !substrCI ".htm".data t.data && !substrCI "/".data t.data)
          then some t else none)
      rw [e1, e2, e3, e4]

def bmGood : BookmarkRow :=
  ⟨"hl-good", "vol3!ch1", "vol3", some "A good highlight", none, none, none,
    some "2025-01-26", none⟩

def ctGoodBook : ContentRow :=
  ⟨"vol3", some "Good Book", some "Good Book", some "Good Author", none, none, none, none,
    some 6⟩

def ctGoodChap : ContentRow :=
  ⟨"vol3!ch1", some "Good Book", some "Introduction", some "Good Author", none, none, none, none,
    some 9⟩

def hlGood : Highlight :=
  ⟨"hl-good", "A good highlight", none, some "Introduction", none, none, "2025-01-26", none⟩

def bkGood : Book :=
  ⟨"vol3", "Good Book", "Good Author", none, none, none, none, none, none, none, [hlGood]⟩

/-- Witness for the amended C3: a human-readable item title with no TOC row
passes the filter and becomes the chapter title. -/
theorem chapter_title_filter_witness :
    hlGood.chapterTitle =
      match (([ctGoodBook, ctGoodChap].filter (chapJoin bmGood)).head?).bind
          (fun c => c.title) with
      | none => none
      | some t =>
        if !substrCI ".xhtml".data t.data && !substrCI ".html".data t.data
            && !substrCI ".htm".data t.data && !substrCI "/".data t.data
        then some t else none :=
  chapter_title_filter [bmGood] [ctGoodBook, ctGoodChap] bmGood (by decide) (by decide)
    (by decide) (by decide) bkGood (by decide) hlGood (by decide) (by decide)

/-! ### Cover resolution engine (`src/covers/mod.rs`)

The cache directory is a name/entry association list (files carry their
bytes as a string, subdirectories their own entries); an archive is the
name/content list of its zip entries, which is the whole view the code
takes of the external `zip` crate. The SHA-256 hex digest is a parameter
`sha256hex` of the model — all that matters to the code is that it is a
deterministic function of its input string. `extract_cover` additionally
returns whether `fs::File::open(epub_path)` was reached, so that claims
about "no archive re-read" are expressible. -/

inductive CoverError where
  | io
  | zip
  | noCoverFound
deriving DecidableEq, Repr

/-- A cache-directory entry: a regular file or a subdirectory. -/
inductive CEntry where
  | file (content : String)
  | dir (entries : List (String × CEntry))
deriving Repr

def isFileE : CEntry → Bool
  | .file _ => true
  | .dir _ => false

def lookupE : List (String × CEntry) → String → Option CEntry
  | [], _ => none
  | (k, v) :: t, key => if k = key then some v else lookupE t key

/-- Create/truncate a name to hold the given content. -/
def setE (d : List (String × CEntry)) (k : String) (v : CEntry) : List (String × CEntry) :=
  (k, v) :: d.filter (fun p => !(p.1 == k))

/-- `fs::File::create` + `write_all`: fails (EISDIR) when the name is held
by a directory, otherwise creates or truncates the file. -/
def writeFileE (d : List (String × CEntry)) (k : String) (content : String) :
    Except CoverError (List (String × CEntry)) :=
  match lookupE d k with
  | some (.dir _) => .error .io
  | _ => .ok (setE d k (.file content))

/-- A zip archive as the code sees it: entry names with their bytes. -/
structure Archive where
  entries : List (String × String)
deriving DecidableEq, Repr

/-- `archive.by_name(name)` (exact-name zip entry lookup). -/
def lookupZ : List (String × String) → String → Option String
  | [], _ => none
  | (k, v) :: t, key => if k = key then some v else lookupZ t key

/-- `compute_cache_key`: first 16 hex characters (`[..16]` byte slicing on
the ASCII hex string) of the SHA-256 of `"{path}:{modified_secs}"`. -/
def computeCacheKey (sha256hex : String → String) (path : String) (mtime : Nat) : String :=
  ⟨(sha256hex (path ++ ":" ++ toString mtime)).data.take 16⟩

/-- Suffix strictly after the first occurrence of the pattern
(`content.find(pat)` + index arithmetic). -/
def afterFirst (pat : List Char) : List Char → Option (List Char)
  | [] => if pat.isEmpty then some [] else none
  | c :: cs =>
    if pat.isPrefixOf (c :: cs) then some ((c :: cs).drop pat.length)
    else afterFirst pat cs

/-- Suffix from the first occurrence of the pattern onwards (inclusive). -/
def fromFirst (pat : List Char) : List Char → Option (List Char)
  | [] => if pat.isEmpty then some [] else none
  | c :: cs =>
    if pat.isPrefixOf (c :: cs) then some (c :: cs) else fromFirst pat cs

/-- Text strictly before the first occurrence of the pattern. -/
def beforeFirst (pat : List Char) : List Char → Option (List Char)
  | [] => if pat.isEmpty then some [] else none
  | c :: cs =>
    if pat.isPrefixOf (c :: cs) then some []
    else
      match beforeFirst pat cs with
      | some r => some (c :: r)
      | none => none

/-- Suffix strictly after the LAST occurrence of the pattern (`rfind`). -/
def afterLast (pat : List Char) : List Char → Option (List Char)
  | [] => if pat.isEmpty then some [] else none
  | c :: cs =>
    match afterLast pat cs with
    | some r => some r
    | none => if pat.isPrefixOf (c :: cs) then some ((c :: cs).drop pat.length) else none

/-- `sub.find('"')` and slice before it; `None` when no quote follows. -/
def takeToQuote (s : List Char) : Option (List Char) :=
  if '"' ∈ s then some (s.takeWhile (fun c => c ≠ '"')) else none

/-- `Path::new(p).parent().unwrap_or("")` for archive-internal paths. -/
def parentDir (p : String) : String :=
  if '/' ∈ p.data then ⟨(((p.data.reverse.dropWhile (fun c => c ≠ '/')).drop 1)).reverse⟩
  else ""

/-- `opf_dir.join(href)` for archive-internal forward-slash paths. -/
def joinPath (dir rel : String) : String :=
  if prefixCS "/".data rel.data then rel
  else if dir = "" then rel
  else dir ++ "/" ++ rel

/-- `get_opf_path`: read `META-INF/container.xml` and slice out the
`full-path="…"` attribute value. -/
def get_opf_path (a : Archive) : Option String :=
  match lookupZ a.entries "META-INF/container.xml" with
  | none => none
  | some content =>
    match afterFirst "full-path=\"".data content.data with
    | none => none
    | some sub =>
      match takeToQuote sub with
      | none => none
      | some p => some ⟨p⟩

/-- `parse_opf_for_cover`: EPUB 3 `properties="cover-image"` (searching
backwards for the nearest `href="`), then EPUB 2 `<meta name="cover"
content=ID>` plus the `id="…"` manifest item; failures (including a
missing OPF entry) surface as `none`, which the caller treats as any
other swallowed error. -/
def parse_opf_for_cover (a : Archive) (opfPath : String) : Option String :=
  match lookupZ a.entries opfPath with
  | none => none
  | some content =>
    match
      (match beforeFirst "properties=\"cover-image\"".data content.data with
       | none => none
       | some pre =>
         match afterLast "href=\"".data pre with
         | none => none
         | some sub =>
           match takeToQuote sub with
           | none => none
           | some href => some (joinPath (parentDir opfPath) ⟨href⟩)) with
    | some p => some p
    | none =>
      match fromFirst "name=\"cover\"".data content.data with
      | none => none
      | some sub =>
        match afterFirst "content=\"".data sub with
        | none => none
        | some subId =>
          match takeToQuote subId with
          | none => none
          | some coverId =>
            match fromFirst ("id=\"".data ++ coverId ++ "\"".data) content.data with
            | none => none
            | some itemSub =>
              match afterFirst "href=\"".data itemSub with
              | none => none
              | some hrefSub =>
                match takeToQuote hrefSub with
                | none => none
                | some href => some (joinPath (parentDir opfPath) ⟨href⟩)

/-- The fixed list of conventional cover paths tried first in the
fallback. -/
def commonCoverPaths : List String :=
  ["OEBPS/cover.jpg", "OEBPS/cover.jpeg", "OEBPS/cover.png", "OEBPS/Images/cover.jpg",
   "OEBPS/images/cover.jpg", "OPS/cover.jpg", "OPS/cover.jpeg", "OPS/images/cover.jpg",
   "cover.jpg", "cover.jpeg", "cover.png"]

/-- `name.split('/').count()`. -/
def pathDepth (name : String) : Nat := name.data.countP (fun c => c == '/') + 1

/-- `to_lowercase()` restricted to ASCII (the archive names the heuristic
targets are ASCII). -/
def lowerStr (s : String) : String := ⟨s.data.map lch⟩

/-- An image entry whose lower-cased name contains "cover". -/
def isCoverImageName (nameLower : List Char) : Bool :=
  (suffixCS ".jpg".data nameLower || suffixCS ".jpeg".data nameLower
    || suffixCS ".png".data nameLower) && substrCS "cover".data nameLower

/-- The index scan keeping the shallowest (strictly fewer path segments)
cover-named image; first seen wins ties. -/
def scanBest : List (String × String) → Option (String × Nat) → Option (String × Nat)
  | [], best => best
  | (name, _) :: rest, best =>
    if isCoverImageName (lowerStr name).data then
      match best with
      | none => scanBest rest (some (name, pathDepth name))
      | some (bn, bd) =>
        if pathDepth name < bd then scanBest rest (some (name, pathDepth name))
        else scanBest rest (some (bn, bd))
    else scanBest rest best

/-- `fallback_find_cover_path`. -/
def fallback_find_cover_path (a : Archive) : Option String :=
  match commonCoverPaths.find? (fun p => (lookupZ a.entries p).isSome) with
  | some p => some p
  | none => (scanBest a.entries none).map (fun x => x.1)

/-- `find_cover_path`: manifest parse first, filename fallback second. -/
def find_cover_path (a : Archive) : Option String :=
  match get_opf_path a with
  | some p =>
    match parse_opf_for_cover a p with
    | some href => some href
    | none => fallback_find_cover_path a
  | none => fallback_find_cover_path a

/-- The fixed placeholder SVG written by `generate_placeholder`. -/
def svgPlaceholder : String :=
  "<svg xmlns=\"http://www.w3.org/2000/svg\" width=\"200\" height=\"300\" viewBox=\"0 0 200 300\">\n            <rect width=\"200\" height=\"300\" fill=\"#f0f0f0\"/>\n            <rect x=\"20\" y=\"40\" width=\"160\" height=\"200\" fill=\"#e0e0e0\" stroke=\"#ccc\" stroke-width=\"2\"/>\n            <text x=\"100\" y=\"150\" text-anchor=\"middle\" font-family=\"sans-serif\" font-size=\"14\" fill=\"#999\">\n                Sem Capa\n            </text>\n        </svg>"

/-- Writing extracted cover bytes to the `{key}.jpg` cache artifact. -/
def extract_cover_write (sha256hex : String → String) (cdir : String)
    (st : List (String × CEntry)) (path : String) (mtime : Nat) (d : String) :
    Except CoverError (Option String) × List (String × CEntry) × Bool :=
  match writeFileE st (computeCacheKey sha256hex path mtime ++ ".jpg") d with
  | .error e => (.error e, st, true)
  | .ok st2 =>
    (.ok (some (cdir ++ "/" ++ (computeCacheKey sha256hex path mtime ++ ".jpg"))), st2, true)

/-- The `Some(path_in_epub)` arm of `extract_cover`: read the entry's
bytes (`by_name(..)?` propagates a zip error when absent) and write them
under `{key}.jpg`. -/
def extract_cover_found (sha256hex : String → String) (cdir : String)
    (st : List (String × CEntry)) (path : String) (mtime : Nat) (a : Archive) (cp : String) :
    Except CoverError (Option String) × List (String × CEntry) × Bool :=
  match lookupZ a.entries cp with
  | none => (.error .zip, st, true)
  | some d => extract_cover_write sha256hex cdir st path mtime d

/-- The `None` arm of `extract_cover`: synthesize and cache the
placeholder under `{key}_placeholder.svg`. -/
def extract_cover_placeholder (sha256hex : String → String) (cdir : String)
    (st : List (String × CEntry)) (path : String) (mtime : Nat) :
    Except CoverError (Option String) × List (String × CEntry) × Bool :=
  match writeFileE st (computeCacheKey sha256hex path mtime ++ "_placeholder.svg")
      svgPlaceholder with
  | .error e => (.error e, st, true)
  | .ok st2 =>
    (.ok (some (cdir ++ "/" ++ (computeCacheKey sha256hex path mtime ++ "_placeholder.svg"))),
      st2, true)

/-- Cover discovery and the match on its result, after the archive was
opened. -/
def extract_cover_inner (sha256hex : String → String) (cdir : String)
    (st : List (String × CEntry)) (path : String) (mtime : Nat) (a : Archive) :
    Except CoverError (Option String) × List (String × CEntry) × Bool :=
  match find_cover_path a with
  | some cp => extract_cover_found sha256hex cdir st path mtime a cp
  | none => extract_cover_placeholder sha256hex cdir st path mtime

/-- `extract_cover`: cache check on `{key}.jpg`, then archive open, cover
discovery, extraction or placeholder synthesis. The archive argument is
`none` when the file is not a readable zip container (`ZipArchive::new`
fails); the returned boolean records whether `fs::File::open` was
reached. -/
def extract_cover (sha256hex : String → String) (cdir : String)
    (st : List (String × CEntry)) (path : String) (mtime : Nat) (arch : Option Archive) :
    Except CoverError (Option String) × List (String × CEntry) × Bool :=
  match lookupE st (computeCacheKey sha256hex path mtime ++ ".jpg") with
  | some _ =>
    (.ok (some (cdir ++ "/" ++ (computeCacheKey sha256hex path mtime ++ ".jpg"))), st, false)
  | none =>
    match arch with
    | none => (.error .zip, st, true)
    | some a => extract_cover_inner sha256hex cdir st path mtime a

/-- `clear_cache`: when the cache directory exists, walk its entries and
remove each regular file; subdirectories are left alone. -/
def clear_cache (st : Option (List (String × CEntry))) :
    Except CoverError (Option (List (String × CEntry))) :=
  match st with
  | none => .ok none
  | some es =>
    .ok (some (es.foldl
      (fun cur e => if isFileE e.2 then cur.filter (fun p => !(p.1 == e.1)) else cur) es))

/-! ### Lemmas about the cache-directory model -/

theorem lookupE_setE_self (d : List (String × CEntry)) (k : String) (v : CEntry) :
    lookupE (setE d k v) k = some v := by
  simp [setE, lookupE]

theorem lookupE_filter_ne (k k' : String) (h : k' ≠ k) :
    ∀ d : List (String × CEntry),
      lookupE (d.filter (fun p => !(p.1 == k))) k' = lookupE d k' := by
  intro d
  induction d with
  | nil => rfl
  | cons kv t ih =>
    obtain ⟨k0, v0⟩ := kv
    rw [List.filter_cons]
    by_cases h0 : k0 = k
    · have hc : (!(k0 == k)) = false := by simp [h0]
      rw [hc, if_neg (by simp)]
      rw [ih]
      show lookupE t k' = lookupE ((k0, v0) :: t) k'
      have hne : ¬ k0 = k' := by
        rw [h0]
        exact fun hh => h hh.symm
      simp only [lookupE, if_neg hne]
    · have hc : (!(k0 == k)) = true := by simp [h0]
      rw [hc, if_pos rfl]
      by_cases h1 : k0 = k'
      · simp only [lookupE, if_pos h1]
      · simp only [lookupE, if_neg h1]
        exact ih

theorem lookupE_setE_other (d : List (String × CEntry)) (k k' : String) (v : CEntry)
    (h : k' ≠ k) : lookupE (setE d k v) k' = lookupE d k' := by
  show (if k = k' then some v else lookupE (d.filter (fun p => !(p.1 == k))) k') = _
  rw [if_neg (fun hh => h hh.symm)]
  exact lookupE_filter_ne k k' h d

theorem setE_setE (d : List (String × CEntry)) (k : String) (v : CEntry) :
    setE (setE d k v) k v = setE d k v := by
  simp only [setE]
  congr 1
  rw [List.filter_cons]
  have hc : (!(k == k)) = false := by simp
  rw [hc, if_neg (by simp)]
  rw [List.filter_filter]
  apply List.filter_congr
  intro a _
  simp

theorem writeFileE_ok (d : List (String × CEntry)) (k c : String)
    (d2 : List (String × CEntry)) :
    writeFileE d k c = .ok d2 → d2 = setE d k (.file c) := by
  unfold writeFileE
  cases h : lookupE d k with
  | none => intro hh; exact (Except.ok.inj hh).symm
  | some e =>
    cases e with
    | file s => intro hh; exact (Except.ok.inj hh).symm
    | dir l => intro hh; cases hh

theorem writeFileE_of_not_dir (d : List (String × CEntry)) (k c : String)
    (h : ∀ l, lookupE d k ≠ some (.dir l)) :
    writeFileE d k c = .ok (setE d k (.file c)) := by
  unfold writeFileE
  cases he : lookupE d k with
  | none => rfl
  | some e =>
    cases e with
    | file s => rfl
    | dir l => exact absurd he (h l)

theorem jpg_ne_placeholder (k : String) : k ++ ".jpg" ≠ k ++ "_placeholder.svg" := by
  intro h
  have hd : k.data ++ ".jpg".data = k.data ++ "_placeholder.svg".data := by
    rw [← String.data_append, ← String.data_append, h]
  have h2 := List.append_cancel_left hd
  exact absurd h2 (by decide)

/-! ### Claim C9 -/

theorem clear_foldl_filter :
    ∀ (l cur : List (String × CEntry)),
      l.foldl (fun cur e => if isFileE e.2 then cur.filter (fun p => !(p.1 == e.1)) else cur) cur
        = cur.filter
            (fun p => !(((l.filter (fun e => isFileE e.2)).map Prod.fst).contains p.1)) := by
  intro l
  induction l with
  | nil =>
    intro cur
    simp
  | cons e l ih =>
    intro cur
    rw [List.foldl_cons]
    by_cases hf : isFileE e.2 = true
    · rw [if_pos hf, ih, List.filter_filter]
      apply List.filter_congr
      intro p _
      simp [List.filter_cons, hf, Bool.and_comm]
    · rw [if_neg hf, ih]
      apply List.filter_congr
      intro p _
      simp [List.filter_cons, hf]

/-- C9: `clear_cache` removes exactly the regular files directly under the
cache root — subdirectories survive with their contents untouched, the
root itself survives, and an empty or missing directory yields `Ok`. -/
theorem clear_cache_frame (es : List (String × CEntry)) (hnd : (es.map Prod.fst).Nodup) :
    clear_cache (some es) = .ok (some (es.filter (fun e => !(isFileE e.2))))
    ∧ clear_cache (some []) = .ok (some [])
    ∧ clear_cache none = .ok none := by
  refine ⟨?_, rfl, rfl⟩
  rw [show clear_cache (some es)
      = .ok (some (es.foldl
          (fun cur e => if isFileE e.2 then cur.filter (fun p => !(p.1 == e.1)) else cur) es))
    from rfl]
  rw [clear_foldl_filter es es]
  have hfil : es.filter
      (fun p => !(((es.filter (fun e => isFileE e.2)).map Prod.fst).contains p.1))
      = es.filter (fun e => !(isFileE e.2)) := by
    apply List.filter_congr
    intro p hp
    by_cases hf : isFileE p.2 = true
    · have hin : p.1 ∈ (es.filter (fun e => isFileE e.2)).map Prod.fst :=
        List.mem_map.mpr ⟨p, List.mem_filter.mpr ⟨hp, hf⟩, rfl⟩
      have hcont : ((es.filter (fun e => isFileE e.2)).map Prod.fst).contains p.1 = true := by
        exact List.elem_iff.mpr hin
      rw [hcont, hf]
    · have hnotin : p.1 ∉ (es.filter (fun e => isFileE e.2)).map Prod.fst := by
        intro hin
        obtain ⟨q, hq, hq2⟩ := List.mem_map.mp hin
        have hqp : q = p :=
          List.inj_on_of_nodup_map hnd (List.mem_filter.mp hq).1 hp hq2
        rw [hqp] at hq
        exact hf (List.mem_filter.mp hq).2
      have hcont : ((es.filter (fun e => isFileE e.2)).map Prod.fst).contains p.1 = false := by
        cases hcc : ((es.filter (fun e => isFileE e.2)).map Prod.fst).contains p.1
        · rfl
        · exact absurd (List.elem_iff.mp hcc) hnotin
      rw [hcont]
      cases hff : isFileE p.2
      · rfl
      · exact absurd hff hf
  rw [hfil]

/-- Witness for C9 on a cache holding two files and one subdirectory. -/
theorem clear_cache_frame_witness :
    clear_cache (some [("a.jpg", CEntry.file "X"), ("sub", CEntry.dir [("b.jpg", CEntry.file "Y")]),
        ("c.svg", CEntry.file "Z")])
      = .ok (some ([("a.jpg", CEntry.file "X"), ("sub", CEntry.dir [("b.jpg", CEntry.file "Y")]),
          ("c.svg", CEntry.file "Z")].filter (fun e => !(isFileE e.2)))) :=
  (clear_cache_frame _ (by decide)).1

/-! ### Claim C1 -/

/-- C1 amended: whenever a first `extract_cover` call succeeds, the
immediately repeated call on the unmodified archive returns the same
artifact path and leaves the cache byte-identical (the state is unchanged,
the placeholder being rewritten with identical bytes); the archive is
skipped exactly when a `{key}.jpg` artifact exists after the first call
(cache hit or extracted cover), and it IS re-opened and re-read when the
first call resolved to the synthesized placeholder, whose
`{key}_placeholder.svg` name never satisfies the `{key}.jpg` cache
check. -/
theorem extract_cover_idempotent (sha : String → String) (cdir : String)
    (st : List (String × CEntry)) (path : String) (mtime : Nat) (a : Archive)
    (p : String) (st1 : List (String × CEntry)) (o1 : Bool)
    (h1 : extract_cover sha cdir st path mtime (some a) = (.ok (some p), st1, o1)) :
    extract_cover sha cdir st1 path mtime (some a)
      = (.ok (some p), st1,
          (lookupE st1 (computeCacheKey sha path mtime ++ ".jpg")).isNone)
    ∧ (find_cover_path a = none →
        lookupE st (computeCacheKey sha path mtime ++ ".jpg") = none →
        (lookupE st1 (computeCacheKey sha path mtime ++ ".jpg")).isNone = true) := by
  cases hc : lookupE st (computeCacheKey sha path mtime ++ ".jpg") with
  | some e =>
    have hval : extract_cover sha cdir st path mtime (some a)
        = (.ok (some (cdir ++ "/" ++ (computeCacheKey sha path mtime ++ ".jpg"))), st, false) := by
      unfold extract_cover
      rw [hc]
    rw [hval] at h1
    obtain ⟨hp, hrest⟩ := Prod.mk.inj h1
    obtain ⟨hst, _⟩ := Prod.mk.inj hrest
    constructor
    · rw [← hst, hval, hp, hc]
      rfl
    · intro _ hn
      exact Option.noConfusion hn
  | none =>
    have hval : extract_cover sha cdir st path mtime (some a)
        = extract_cover_inner sha cdir st path mtime a := by
      unfold extract_cover
      rw [hc]
    rw [hval] at h1
    cases hf : find_cover_path a with
    | some cp =>
      have hval2 : extract_cover_inner sha cdir st path mtime a
          = extract_cover_found sha cdir st path mtime a cp := by
        unfold extract_cover_inner
        rw [hf]
      rw [hval2] at h1
      cases hz : lookupZ a.entries cp with
      | none =>
        have hval3 : extract_cover_found sha cdir st path mtime a cp
            = (.error .zip, st, true) := by
          unfold extract_cover_found
          rw [hz]
        rw [hval3] at h1
        simp [Prod.ext_iff] at h1
      | some d =>
        have hw : writeFileE st (computeCacheKey sha path mtime ++ ".jpg") d
            = .ok (setE st (computeCacheKey sha path mtime ++ ".jpg") (.file d)) := by
          unfold writeFileE
          rw [hc]
        have hval3 : extract_cover_found sha cdir st path mtime a cp
            = extract_cover_write sha cdir st path mtime d := by
          unfold extract_cover_found
          rw [hz]
        have hval3b : extract_cover_write sha cdir st path mtime d
            = (.ok (some (cdir ++ "/" ++ (computeCacheKey sha path mtime ++ ".jpg"))),
                setE st (computeCacheKey sha path mtime ++ ".jpg") (.file d), true) := by
          unfold extract_cover_write
          rw [hw]
        rw [hval3, hval3b] at h1
        obtain ⟨hp, hrest⟩ := Prod.mk.inj h1
        obtain ⟨hst, _⟩ := Prod.mk.inj hrest
        constructor
        · have hval4 : extract_cover sha cdir st1 path mtime (some a)
              = (.ok (some (cdir ++ "/" ++ (computeCacheKey sha path mtime ++ ".jpg"))),
                  st1, false) := by
            unfold extract_cover
            rw [← hst, lookupE_setE_self]
          rw [hval4, hp, ← hst, lookupE_setE_self]
          rfl
        · intro hfn _
          exact Option.noConfusion hfn
    | none =>
      have hval2 : extract_cover_inner sha cdir st path mtime a
          = extract_cover_placeholder sha cdir st path mtime := by
        unfold extract_cover_inner
        rw [hf]
      rw [hval2] at h1
      cases hw : writeFileE st (computeCacheKey sha path mtime ++ "_placeholder.svg")
          svgPlaceholder with
      | error e2 =>
        have hval3 : extract_cover_placeholder sha cdir st path mtime = (.error e2, st, true) := by
          unfold extract_cover_placeholder
          rw [hw]
        rw [hval3] at h1
        simp [Prod.ext_iff] at h1
      | ok st2 =>
        have hst2 : st2 = setE st (computeCacheKey sha path mtime ++ "_placeholder.svg")
            (.file svgPlaceholder) :=
          writeFileE_ok _ _ _ _ hw
        have hval3 : extract_cover_placeholder sha cdir st path mtime
            = (.ok (some (cdir ++ "/" ++ (computeCacheKey sha path mtime
                ++ "_placeholder.svg"))), st2, true) := by
          unfold extract_cover_placeholder
          rw [hw]
        rw [hval3] at h1
        obtain ⟨hp, hrest⟩ := Prod.mk.inj h1
        obtain ⟨hst, _⟩ := Prod.mk.inj hrest
        have hjpg1 : lookupE st1 (computeCacheKey sha path mtime ++ ".jpg") = none := by
          rw [← hst, hst2, lookupE_setE_other]
          · exact hc
          · exact jpg_ne_placeholder (computeCacheKey sha path mtime)
        have hw2 : writeFileE st1 (computeCacheKey sha path mtime ++ "_placeholder.svg")
            svgPlaceholder
            = .ok (setE st1 (computeCacheKey sha path mtime ++ "_placeholder.svg")
                (.file svgPlaceholder)) := by
          apply writeFileE_of_not_dir
          intro l hcontra
          rw [← hst, hst2, lookupE_setE_self] at hcontra
          simp at hcontra
        have hsetid : setE st1 (computeCacheKey sha path mtime ++ "_placeholder.svg")
            (.file svgPlaceholder) = st1 := by
          rw [← hst, hst2, setE_setE]
        constructor
        · have hval4 : extract_cover sha cdir st1 path mtime (some a)
              = extract_cover_inner sha cdir st1 path mtime a := by
            unfold extract_cover
            rw [hjpg1]
          have hval5 : extract_cover_inner sha cdir st1 path mtime a
              = extract_cover_placeholder sha cdir st1 path mtime := by
            unfold extract_cover_inner
            rw [hf]
          have hval6 : extract_cover_placeholder sha cdir st1 path mtime
              = (.ok (some (cdir ++ "/" ++ (computeCacheKey sha path mtime
                  ++ "_placeholder.svg"))), st1, true) := by
            unfold extract_cover_placeholder
            rw [hw2, hsetid]
          rw [hval4, hval5, hval6, hp, hjpg1]
          rfl
        · intro _ _
          rw [hjpg1]
          rfl

/-- Witness for the amended C1: on an archive with no cover the first call
synthesizes the placeholder, and the second call returns the same path and
state but re-opens the archive. -/
theorem extract_cover_idempotent_witness :
    extract_cover (fun s => s) "cache"
        [("b.epub:0_placeholder.svg", CEntry.file svgPlaceholder)] "b.epub" 0
        (some ⟨[("mimetype", "x")]⟩)
      = (.ok (some "cache/b.epub:0_placeholder.svg"),
          [("b.epub:0_placeholder.svg", CEntry.file svgPlaceholder)],
          (lookupE [("b.epub:0_placeholder.svg", CEntry.file svgPlaceholder)]
            (computeCacheKey (fun s => s) "b.epub" 0 ++ ".jpg")).isNone)
    ∧ (find_cover_path ⟨[("mimetype", "x")]⟩ = none →
        lookupE [] (computeCacheKey (fun s => s) "b.epub" 0 ++ ".jpg") = none →
        (lookupE [("b.epub:0_placeholder.svg", CEntry.file svgPlaceholder)]
          (computeCacheKey (fun s => s) "b.epub" 0 ++ ".jpg")).isNone = true) :=
  extract_cover_idempotent (fun s => s) "cache" [] "b.epub" 0 ⟨[("mimetype", "x")]⟩
    "cache/b.epub:0_placeholder.svg"
    [("b.epub:0_placeholder.svg", CEntry.file svgPlaceholder)] true (by rfl)

/-- C1 counterexample: on an archive with no cover, the first call resolves
to the synthesized placeholder; the immediately repeated call on the
unmodified archive nevertheless re-opens and re-reads the archive (its
archive-touch flag is `true`), because the cached
`{key}_placeholder.svg` artifact never satisfies the `{key}.jpg` cache
check — refuting the claim that no archive re-read occurs in the
placeholder case. -/
theorem extract_cover_reopens_placeholder_cex :
    extract_cover (fun s => s) "cache" [] "b.epub" 0 (some ⟨[("mimetype", "x")]⟩)
      = (.ok (some "cache/b.epub:0_placeholder.svg"),
          [("b.epub:0_placeholder.svg", CEntry.file svgPlaceholder)], true)
    ∧ (extract_cover (fun s => s) "cache"
        [("b.epub:0_placeholder.svg", CEntry.file svgPlaceholder)] "b.epub" 0
        (some ⟨[("mimetype", "x")]⟩)).2.2 = true := by
  exact ⟨rfl, rfl⟩

/-! ### Claim C7 -/

/-- C7 amended: `extract_cover` never returns `Ok(None)`, and when the
archive opens, no cover is discovered and the placeholder can be written,
the result is the placeholder path — but it is NOT true that every archive
that opens successfully yields `Ok`: a manifest-declared cover entry that
is absent from the archive produces an error (see the counterexample). -/
theorem extract_cover_never_ok_none (sha : String → String) (cdir : String)
    (st : List (String × CEntry)) (path : String) (mtime : Nat) (arch : Option Archive) :
    ((extract_cover sha cdir st path mtime arch).1 ≠ .ok none)
    ∧ (∀ a, arch = some a → find_cover_path a = none →
        lookupE st (computeCacheKey sha path mtime ++ ".jpg") = none →
        (∀ l, lookupE st (computeCacheKey sha path mtime ++ "_placeholder.svg")
            ≠ some (.dir l)) →
        (extract_cover sha cdir st path mtime arch).1
          = .ok (some (cdir ++ "/" ++ (computeCacheKey sha path mtime
              ++ "_placeholder.svg")))) := by
  constructor
  · intro hcontra
    cases hc : lookupE st (computeCacheKey sha path mtime ++ ".jpg") with
    | some e =>
      rw [show extract_cover sha cdir st path mtime arch
          = (.ok (some (cdir ++ "/" ++ (computeCacheKey sha path mtime ++ ".jpg"))), st, false)
        from by unfold extract_cover; rw [hc]] at hcontra
      simp at hcontra
    | none =>
      cases arch with
      | none =>
        rw [show extract_cover sha cdir st path mtime none = (.error .zip, st, true)
          from by unfold extract_cover; rw [hc]] at hcontra
        simp at hcontra
      | some a =>
        rw [show extract_cover sha cdir st path mtime (some a)
            = extract_cover_inner sha cdir st path mtime a
          from by unfold extract_cover; rw [hc]] at hcontra
        cases hf : find_cover_path a with
        | some cp =>
          rw [show extract_cover_inner sha cdir st path mtime a
              = extract_cover_found sha cdir st path mtime a cp
            from by unfold extract_cover_inner; rw [hf]] at hcontra
          cases hz : lookupZ a.entries cp with
          | none =>
            rw [show extract_cover_found sha cdir st path mtime a cp
                = (.error .zip, st, true)
              from by unfold extract_cover_found; rw [hz]] at hcontra
            simp at hcontra
          | some d =>
            rw [show extract_cover_found sha cdir st path mtime a cp
                = extract_cover_write sha cdir st path mtime d
              from by unfold extract_cover_found; rw [hz]] at hcontra
            unfold extract_cover_write at hcontra
            cases hw : writeFileE st (computeCacheKey sha path mtime ++ ".jpg") d with
            | error e =>
              rw [hw] at hcontra
              simp at hcontra
            | ok st2 =>
              rw [hw] at hcontra
              simp at hcontra
        | none =>
          rw [show extract_cover_inner sha cdir st path mtime a
              = extract_cover_placeholder sha cdir st path mtime
            from by unfold extract_cover_inner; rw [hf]] at hcontra
          unfold extract_cover_placeholder at hcontra
          cases hw : writeFileE st (computeCacheKey sha path mtime ++ "_placeholder.svg")
              svgPlaceholder with
          | error e =>
            rw [hw] at hcontra
            simp at hcontra
          | ok st2 =>
            rw [hw] at hcontra
            simp at hcontra
  · intro a ha hf hc hnd
    subst ha
    rw [show extract_cover sha cdir st path mtime (some a)
        = extract_cover_inner sha cdir st path mtime a
      from by unfold extract_cover; rw [hc]]
    rw [show extract_cover_inner sha cdir st path mtime a
        = extract_cover_placeholder sha cdir st path mtime
      from by unfold extract_cover_inner; rw [hf]]
    unfold extract_cover_placeholder
    rw [writeFileE_of_not_dir st _ svgPlaceholder hnd]

def archC7 : Archive :=
  ⟨[("META-INF/container.xml", "<rootfile full-path=\"content.opf\"/>"),
    ("content.opf", "<item href=\"missing.jpg\" properties=\"cover-image\"/>")]⟩

/-- C7 counterexample: this archive opens as a zip container, yet
`extract_cover` returns an error, not `Ok(Some ...)`: its manifest
declares a cover href naming an entry the archive does not contain, and
`archive.by_name(path)?` propagates the failure. -/
theorem extract_cover_missing_href_cex :
    extract_cover (fun s => s) "cache" [] "c.epub" 0 (some archC7)
      = (.error .zip, [], true) := by
  rfl

/-- Witness for the amended C7 at a concrete no-cover archive: the result
is the placeholder path. -/
theorem extract_cover_never_ok_none_witness :
    (extract_cover (fun s => s) "cache" [] "b.epub" 0 (some ⟨[("mimetype", "x")]⟩)).1
      = .ok (some ("cache" ++ "/" ++ (computeCacheKey (fun s => s) "b.epub" 0
          ++ "_placeholder.svg"))) :=
  (extract_cover_never_ok_none (fun s => s) "cache" [] "b.epub" 0
      (some ⟨[("mimetype", "x")]⟩)).2
    ⟨[("mimetype", "x")]⟩ rfl (by rfl) (by rfl) (by intro l h; cases h)

/-! ## Settings (`src/src-tauri/src/settings/mod.rs`, `src/src-tauri/src/models/mod.rs`)

Shallow embedding of the settings data model and of `SettingsManager`.
Machine integers (`u32`, `usize`) are modeled as `Nat`: every value the
serializer ever sees comes from a Rust field of the bounded type, and
serialization of such a value always re-parses, so no range check is
needed on the paths modeled here.  `serde_json` is modeled by an explicit
JSON AST (`Json`) together with an encoder and a decoder written
field-by-field from the `#[serde(...)]` attributes in the source
(camelCase wire names with the declared snake_case aliases, enum variants
renamed to snake_case, `Option` fields absent-or-null to `None`, unknown
fields ignored).  Error payloads (`std::io::Error`, `serde_json::Error`
messages) carry no information used by the code, so the error enum is
modeled payload-free. -/

/-- `DateFormat` (models/mod.rs), `#[serde(rename_all = "snake_case")]`. -/
inductive DateFormat where
  | ddMmYyyy
  | ddMonthYyyy
  | iso8601
deriving DecidableEq, Repr

/-- `MetadataConfig` (models/mod.rs); only `date_last_read` declares a
snake_case alias. -/
structure MetadataConfig where
  author : Bool
  isbn : Bool
  publisher : Bool
  dateLastRead : Bool
  language : Bool
  description : Bool
deriving DecidableEq, Repr

/-- `ExportConfig` (models/mod.rs). -/
structure ExportConfig where
  exportPath : String
  metadata : MetadataConfig
  dateFormat : DateFormat
deriving DecidableEq, Repr

/-- `ThemePreference` (settings/mod.rs); the `light`/`dark` aliases
coincide with the snake_case-renamed variant names. -/
inductive ThemePreference where
  | system
  | light
  | dark
deriving DecidableEq, Repr

/-- `ViewMode` (settings/mod.rs). -/
inductive ViewMode where
  | grid
  | list
deriving DecidableEq, Repr

/-- `SortPreference` (settings/mod.rs). -/
inductive SortPreference where
  | title
  | author
  | dateLastRead
  | highlightCount
deriving DecidableEq, Repr

/-- `UiPreferences` (settings/mod.rs); `window_width`/`window_height` are
`u32`, modeled as `Nat` (see the section comment). -/
structure UiPreferences where
  theme : ThemePreference
  windowWidth : Nat
  windowHeight : Nat
  isMaximized : Bool
  showOnboarding : Bool
  libraryViewMode : ViewMode
  librarySort : SortPreference
deriving DecidableEq, Repr

/-- `LastImportRecord` (settings/mod.rs); the `usize` counters are
modeled as `Nat`. -/
structure LastImportRecord where
  timestamp : String
  deviceId : Option String
  booksCount : Nat
  highlightsCount : Nat
deriving DecidableEq, Repr

/-- `AppSettings` (settings/mod.rs). -/
structure AppSettings where
  exportConfig : ExportConfig
  uiPreferences : UiPreferences
  lastImport : Option LastImportRecord
  version : String
deriving DecidableEq, Repr

/-- `MetadataConfig::default()`. -/
def defaultMetadata : MetadataConfig :=
  ⟨true, true, true, true, true, false⟩

/-- `ExportConfig::default()`; `home` is the value of the `HOME`
environment variable (or `"."` when unset), passed as a parameter. -/
def defaultExportConfig (home : String) : ExportConfig :=
  ⟨home ++ "/Documents/Kobo Highlights", defaultMetadata, .ddMonthYyyy⟩

/-- `UiPreferences::default()`. -/
def defaultUi : UiPreferences :=
  ⟨.system, 1200, 800, false, true, .grid, .title⟩

/-- `AppSettings::default()`; `ver` is the compile-time
`env!("CARGO_PKG_VERSION")` string, passed as a parameter (the manifest
declaring it is not part of the source tree). -/
def defaultSettings (home ver : String) : AppSettings :=
  ⟨defaultExportConfig home, defaultUi, none, ver⟩

/-- JSON value AST for the `serde_json` model.  Number payloads are
naturals: the only numbers this code serializes are `u32`/`usize`
fields. -/
inductive Json where
  | null
  | bool (b : Bool)
  | num (n : Nat)
  | str (s : String)
  | obj (fields : List (String × Json))

/-- First field of the given name, as `serde` field lookup. -/
def getF : List (String × Json) → String → Option Json
  | [], _ => none
  | kv :: rest, n => if kv.1 == n then some kv.2 else getF rest n

/-- Field lookup honouring a `#[serde(alias = ...)]`: the camelCase wire
name first, then the declared snake_case alias. -/
def getF2 (l : List (String × Json)) (n a2 : String) : Option Json :=
  match getF l n with
  | some v => some v
  | none => getF l a2

def encodeDateFormat : DateFormat → Json
  | .ddMmYyyy => .str "dd_mm_yyyy"
  | .ddMonthYyyy => .str "dd_month_yyyy"
  | .iso8601 => .str "iso8601"

def encodeTheme : ThemePreference → Json
  | .system => .str "system"
  | .light => .str "light"
  | .dark => .str "dark"

def encodeViewMode : ViewMode → Json
  | .grid => .str "grid"
  | .list => .str "list"

def encodeSort : SortPreference → Json
  | .title => .str "title"
  | .author => .str "author"
  | .dateLastRead => .str "date_last_read"
  | .highlightCount => .str "highlight_count"

def encodeOptStr : Option String → Json
  | none => .null
  | some s => .str s

def encodeMeta (m : MetadataConfig) : Json :=
  .obj [("author", .bool m.author), ("isbn", .bool m.isbn),
        ("publisher", .bool m.publisher), ("dateLastRead", .bool m.dateLastRead),
        ("language", .bool m.language), ("description", .bool m.description)]

def encodeExportConfig (ec : ExportConfig) : Json :=
  .obj [("exportPath", .str ec.exportPath), ("metadata", encodeMeta ec.metadata),
        ("dateFormat", encodeDateFormat ec.dateFormat)]

def encodeUi (u : UiPreferences) : Json :=
  .obj [("theme", encodeTheme u.theme), ("windowWidth", .num u.windowWidth),
        ("windowHeight", .num u.windowHeight), ("isMaximized", .bool u.isMaximized),
        ("showOnboarding", .bool u.showOnboarding),
        ("libraryViewMode", encodeViewMode u.libraryViewMode),
        ("librarySort", encodeSort u.librarySort)]

def encodeLastImport (r : LastImportRecord) : Json :=
  .obj [("timestamp", .str r.timestamp), ("deviceId", encodeOptStr r.deviceId),
        ("booksCount", .num r.booksCount), ("highlightsCount", .num r.highlightsCount)]

def encodeLastImportOpt : Option LastImportRecord → Json
  | none => .null
  | some r => encodeLastImport r

/-- `serde_json::to_string_pretty(&AppSettings)`, at the AST level. -/
def encodeAppSettings (s : AppSettings) : Json :=
  .obj [("exportConfig", encodeExportConfig s.exportConfig),
        ("uiPreferences", encodeUi s.uiPreferences),
        ("lastImport", encodeLastImportOpt s.lastImport),
        ("version", .str s.version)]

def decodeBoolJ : Option Json → Option Bool
  | some (.bool b) => some b
  | _ => none

def decodeNumJ : Option Json → Option Nat
  | some (.num n) => some n
  | _ => none

def decodeStrJ : Option Json → Option String
  | some (.str s) => some s
  | _ => none

def decodeDateFormat : Json → Option DateFormat
  | .str "dd_mm_yyyy" => some .ddMmYyyy
  | .str "dd_month_yyyy" => some .ddMonthYyyy
  | .str "iso8601" => some .iso8601
  | _ => none

def decodeTheme : Json → Option ThemePreference
  | .str "system" => some .system
  | .str "light" => some .light
  | .str "dark" => some .dark
  | _ => none

def decodeViewMode : Json → Option ViewMode
  | .str "grid" => some .grid
  | .str "list" => some .list
  | _ => none

def decodeSort : Json → Option SortPreference
  | .str "title" => some .title
  | .str "author" => some .author
  | .str "date_last_read" => some .dateLastRead
  | .str "highlight_count" => some .highlightCount
  | _ => none

/-- An `Option<String>` field: absent or `null` decodes to `None`
(`serde` defaults `Option` fields). -/
def decodeOptStrF (l : List (String × Json)) (n a2 : String) : Option (Option String) :=
  match getF2 l n a2 with
  | none => some none
  | some .null => some none
  | some (.str s) => some (some s)
  | some _ => none

def decodeMeta : Json → Option MetadataConfig
  | .obj l =>
    match decodeBoolJ (getF l "author"), decodeBoolJ (getF l "isbn"),
          decodeBoolJ (getF l "publisher"),
          decodeBoolJ (getF2 l "dateLastRead" "date_last_read"),
          decodeBoolJ (getF l "language"), decodeBoolJ (getF l "description") with
    | some a, some i, some pu, some dl, some lg, some de =>
        some ⟨a, i, pu, dl, lg, de⟩
    | _, _, _, _, _, _ => none
  | _ => none

def decodeExportConfig : Json → Option ExportConfig
  | .obj l =>
    match decodeStrJ (getF2 l "exportPath" "export_path"),
          (getF l "metadata").bind decodeMeta,
          (getF2 l "dateFormat" "date_format").bind decodeDateFormat with
    | some ep, some md, some df => some ⟨ep, md, df⟩
    | _, _, _ => none
  | _ => none

def decodeUi : Json → Option UiPreferences
  | .obj l =>
    match (getF l "theme").bind decodeTheme,
          decodeNumJ (getF2 l "windowWidth" "window_width"),
          decodeNumJ (getF2 l "windowHeight" "window_height"),
          decodeBoolJ (getF2 l "isMaximized" "is_maximized"),
          decodeBoolJ (getF2 l "showOnboarding" "show_onboarding"),
          (getF2 l "libraryViewMode" "library_view_mode").bind decodeViewMode,
          (getF2 l "librarySort" "library_sort").bind decodeSort with
    | some th, some ww, some wh, some im, some so, some vm, some ls =>
        some ⟨th, ww, wh, im, so, vm, ls⟩
    | _, _, _, _, _, _, _ => none
  | _ => none

def decodeLastImport : Json → Option LastImportRecord
  | .obj l =>
    match decodeStrJ (getF l "timestamp"), decodeOptStrF l "deviceId" "device_id",
          decodeNumJ (getF2 l "booksCount" "books_count"),
          decodeNumJ (getF2 l "highlightsCount" "highlights_count") with
    | some ts, some dev, some bc, some hc => some ⟨ts, dev, bc, hc⟩
    | _, _, _, _ => none
  | _ => none

/-- The `last_import` field of `AppSettings`: `#[serde(default, alias =
"last_import")]` on an `Option`, so absent or `null` is `None`. -/
def decodeLastImportF (l : List (String × Json)) : Option (Option LastImportRecord) :=
  match getF2 l "lastImport" "last_import" with
  | none => some none
  | some .null => some none
  | some j => (decodeLastImport j).map some

/-- `serde_json::from_str::<AppSettings>`, at the AST level. -/
def decodeAppSettings : Json → Option AppSettings
  | .obj l =>
    match (getF2 l "exportConfig" "export_config").bind decodeExportConfig,
          (getF2 l "uiPreferences" "ui_preferences").bind decodeUi,
          decodeLastImportF l, decodeStrJ (getF l "version") with
    | some ec, some ui, some li, some v => some ⟨ec, ui, li, v⟩
    | _, _, _, _ => none
  | _ => none

/-- What the settings path can hold on disk, as seen through
`fs::read_to_string` followed by `serde_json::from_str`:
`jsonText j` — readable UTF-8 text that is valid JSON with AST `j`;
`textNotJson` — readable text that is not valid JSON;
`unreadable` — a file `read_to_string` fails on (non-UTF-8 bytes or an
I/O failure). -/
inductive FileData where
  | jsonText (j : Json)
  | textNotJson
  | unreadable

/-- A directory as an association list from paths to file contents. -/
def SFS : Type := List (String × FileData)

def lookupF : SFS → String → Option FileData
  | [], _ => none
  | kv :: rest, k => if kv.1 == k then some kv.2 else lookupF rest k

def setF : SFS → String → FileData → SFS
  | [], k, v => [(k, v)]
  | kv :: rest, k, v => if kv.1 == k then (k, v) :: rest else kv :: setF rest k v

def removeF (fs : SFS) (k : String) : SFS :=
  List.filter (fun kv => !(kv.1 == k)) fs

/-- `fs::copy(src, dst)`; a missing source is the failure case, which the
callers here either ignore (`let _ = fs::copy(..)`) or guard by an
`exists()` check. -/
def copyF (fs : SFS) (src dst : String) : SFS :=
  match lookupF fs src with
  | none => fs
  | some d => setF fs dst d

/-- `fs::rename(src, dst)`: the destination takes the source's content
and the source entry disappears. -/
def renameF (fs : SFS) (src dst : String) : SFS :=
  match lookupF fs src with
  | none => fs
  | some d => setF (removeF fs src) dst d

/-- Split a character list at its last `'.'` into (before, after). -/
def splitLastDot : List Char → Option (List Char × List Char)
  | [] => none
  | x :: xs =>
    match splitLastDot xs with
    | some (pre, suf) => some (x :: pre, suf)
    | none => if x == '.' then some ([], xs) else none

/-- The stem of a path's final component: everything before the last
`'.'`, except that a lone leading dot does not start an extension
(`Path::file_stem`). -/
def stemOf (name : List Char) : List Char :=
  match splitLastDot name with
  | none => name
  | some (stem, _) => if stem.isEmpty then name else stem

/-- Split a character list at its last `'/'` into (before, after). -/
def splitLastSlash : List Char → Option (List Char × List Char)
  | [] => none
  | x :: xs =>
    match splitLastSlash xs with
    | some (pre, suf) => some (x :: pre, suf)
    | none => if x == '/' then some ([], xs) else none

/-- `Path::with_extension(ext)`: replace the final component's extension
(the part after its last non-leading `'.'`) with `ext`. -/
def withExt (p ext : String) : String :=
  match splitLastSlash p.data with
  | some (dir, name) => ⟨dir ++ '/' :: (stemOf name ++ '.' :: ext.data)⟩
  | none => ⟨stemOf p.data ++ '.' :: ext.data⟩

/-- `SettingsError`, payload-free (the payloads are log text only). -/
inductive SettingsErr where
  | homeNotFound
  | ioError
  | parseError
  | serializeError
deriving DecidableEq, Repr

/-- The `serde_json::from_str` tail of `load_from_file`. -/
def load_decode (j : Json) : Except SettingsErr AppSettings :=
  match decodeAppSettings j with
  | none => .error .parseError
  | some s => .ok s

/-- `SettingsManager::load_from_file`: `read_to_string` failures map to
`IoError`, parse failures to `ParseError`. -/
def load_from_file (fs : SFS) (p : String) : Except SettingsErr AppSettings :=
  match lookupF fs p with
  | none => .error .ioError
  | some .unreadable => .error .ioError
  | some .textNotJson => .error .parseError
  | some (.jsonText j) => load_decode j

/-- The parse step of `load_with_fallback`: on parse failure the original
file is copied aside to the `.corrupted` sibling (copy errors ignored)
and defaults are returned. -/
def fallback_decode (home ver : String) (fs : SFS) (p : String) (j : Json) :
    Except SettingsErr (AppSettings × SFS) :=
  match decodeAppSettings j with
  | some s => .ok (s, fs)
  | none => .ok (defaultSettings home ver, copyF fs p (withExt p "json.corrupted"))

/-- `SettingsManager::load_with_fallback`: a `read_to_string` failure is
an `IoError` propagated to the caller; unparsable text falls back to
defaults after the `.corrupted` copy. -/
def load_with_fallback (home ver : String) (fs : SFS) (p : String) :
    Except SettingsErr (AppSettings × SFS) :=
  match lookupF fs p with
  | none => .error .ioError
  | some .unreadable => .error .ioError
  | some .textNotJson =>
      .ok (defaultSettings home ver, copyF fs p (withExt p "json.corrupted"))
  | some (.jsonText j) => fallback_decode home ver fs p j

/-- `SettingsManager::with_path`: an existing file goes through
`load_with_fallback` (whose `IoError` propagates via `?`), a missing one
yields `AppSettings::default()`.  The result pairs the loaded settings
with the resulting directory state. -/
def with_path (home ver : String) (fs : SFS) (p : String) :
    Except SettingsErr (AppSettings × SFS) :=
  match lookupF fs p with
  | none => .ok (defaultSettings home ver, fs)
  | some _ => load_with_fallback home ver fs p

/-- The effect of `save`'s write path on the directory: backup copy of an
existing file to the `.backup` sibling (skipped silently when the file is
missing, exactly `copyF`'s missing-source case), write the serialized
settings to the `.tmp` sibling, atomically rename it onto the target.
File writes and renames cannot fail in this model, so the first attempt
of the retry loop completes. -/
def save_write (fs : SFS) (p : String) (s : AppSettings) : SFS :=
  renameF
    (setF (copyF fs p (withExt p "json.backup")) (withExt p "json.tmp")
      (.jsonText (encodeAppSettings s)))
    (withExt p "json.tmp") p

/-- `save`'s post-validation: re-read the written file and accept only if
the version round-trips. -/
def save_validate (fs3 : SFS) (p : String) (s : AppSettings) : Except SettingsErr SFS :=
  match load_from_file fs3 p with
  | .ok v => if v.version == s.version then .ok fs3 else .error .ioError
  | .error _ => .error .ioError

/-- `SettingsManager::save`: pre-validate the serialized document
re-parses, write via `save_write`, then post-validate by re-reading and
comparing versions.  The failure branch (post-validation failing three
deterministic identical attempts, then backup restore) returns
`IoError`. -/
def save (fs : SFS) (p : String) (s : AppSettings) : Except SettingsErr SFS :=
  match decodeAppSettings (encodeAppSettings s) with
  | none => .error .serializeError
  | some _ => save_validate (save_write fs p s) p s

theorem lookupF_setF_self (fs : SFS) (k : String) (v : FileData) :
    lookupF (setF fs k v) k = some v := by
  induction fs with
  | nil => simp [setF, lookupF]
  | cons kv rest ih =>
    by_cases h : (kv.1 == k) = true
    · simp [setF, lookupF, h]
    · simp only [setF, h, if_false, Bool.false_eq_true]
      simp only [lookupF, h, if_false, Bool.false_eq_true]
      exact ih

theorem renameF_eq (fs : SFS) (src dst : String) (d : FileData)
    (h : lookupF fs src = some d) :
    renameF fs src dst = setF (removeF fs src) dst d := by
  unfold renameF
  rw [h]

theorem lookupF_save_write (fs : SFS) (p : String) (s : AppSettings) :
    lookupF (save_write fs p s) p = some (.jsonText (encodeAppSettings s)) := by
  unfold save_write
  rw [renameF_eq _ _ _ (.jsonText (encodeAppSettings s)) (lookupF_setF_self _ _ _)]
  exact lookupF_setF_self _ _ _

theorem decodeMeta_encode (m : MetadataConfig) :
    decodeMeta (encodeMeta m) = some m := rfl

theorem decodeExportConfig_encode (ec : ExportConfig) :
    decodeExportConfig (encodeExportConfig ec) = some ec := by
  obtain ⟨ep, md, df⟩ := ec
  cases df <;> rfl

theorem decodeUi_encode (u : UiPreferences) :
    decodeUi (encodeUi u) = some u := by
  obtain ⟨th, ww, wh, im, so, vm, ls⟩ := u
  cases th <;> cases vm <;> cases ls <;> rfl

theorem decodeLastImport_encode (r : LastImportRecord) :
    decodeLastImport (encodeLastImport r) = some r := by
  obtain ⟨ts, dev, bc, hc⟩ := r
  cases dev <;> rfl

/-- Round trip at the AST level: the decoder inverts the encoder. -/
theorem decodeAppSettings_encode (s : AppSettings) :
    decodeAppSettings (encodeAppSettings s) = some s := by
  obtain ⟨⟨ep, md, df⟩, ⟨th, ww, wh, im, so, vm, ls⟩, li, v⟩ := s
  rcases li with _ | ⟨ts, dev, bc, hc⟩
  · cases df <;> cases th <;> cases vm <;> cases ls <;> rfl
  · cases dev <;> cases df <;> cases th <;> cases vm <;> cases ls <;> rfl

/-! ### Claim C2 -/

/-- C2 counterexample: a settings file that exists (so the `exists()`
check routes into `load_with_fallback`) but that `read_to_string` cannot
read — e.g. non-UTF-8 bytes — makes construction surface
`SettingsError::IoError` through the `?` operator, refuting the claim
that constructing the `SettingsManager` never surfaces an error. -/
theorem settings_load_ioerror_cex :
    with_path "/h" "0.1.0" [("cfg/settings.json", FileData.unreadable)]
        "cfg/settings.json"
      = .error .ioError := rfl

/-- C2 amended: constructing the manager returns a settings value without
error for an absent file (defaults), a parseable file (its decoded
settings), and readable-but-unparsable content (defaults, with the
original copied to the `.corrupted` sibling) — but an existing file whose
bytes cannot be read as text surfaces an `IoError`, so the load is not
unconditionally failure-free. -/
theorem settings_load_fallback (home ver : String) (fs : SFS) (p : String) :
    (lookupF fs p = none →
        with_path home ver fs p = .ok (defaultSettings home ver, fs))
    ∧ (∀ j s, lookupF fs p = some (.jsonText j) → decodeAppSettings j = some s →
        with_path home ver fs p = .ok (s, fs))
    ∧ (∀ j, lookupF fs p = some (.jsonText j) → decodeAppSettings j = none →
        with_path home ver fs p
          = .ok (defaultSettings home ver, copyF fs p (withExt p "json.corrupted")))
    ∧ (lookupF fs p = some .textNotJson →
        with_path home ver fs p
          = .ok (defaultSettings home ver, copyF fs p (withExt p "json.corrupted")))
    ∧ (lookupF fs p = some .unreadable →
        with_path home ver fs p = .error .ioError) := by
  refine ⟨?_, ?_, ?_, ?_, ?_⟩
  · intro hn
    unfold with_path
    rw [hn]
  · intro j s hj hd
    rw [show with_path home ver fs p = load_with_fallback home ver fs p from by
      unfold with_path; rw [hj]]
    rw [show load_with_fallback home ver fs p = fallback_decode home ver fs p j from by
      unfold load_with_fallback; rw [hj]]
    unfold fallback_decode
    rw [hd]
  · intro j hj hd
    rw [show with_path home ver fs p = load_with_fallback home ver fs p from by
      unfold with_path; rw [hj]]
    rw [show load_with_fallback home ver fs p = fallback_decode home ver fs p j from by
      unfold load_with_fallback; rw [hj]]
    unfold fallback_decode
    rw [hd]
  · intro ht
    rw [show with_path home ver fs p = load_with_fallback home ver fs p from by
      unfold with_path; rw [ht]]
    rw [show load_with_fallback home ver fs p
        = .ok (defaultSettings home ver, copyF fs p (withExt p "json.corrupted")) from by
      unfold load_with_fallback; rw [ht]]
  · intro hu
    rw [show with_path home ver fs p = load_with_fallback home ver fs p from by
      unfold with_path; rw [hu]]
    rw [show load_with_fallback home ver fs p = .error .ioError from by
      unfold load_with_fallback; rw [hu]]

/-- Witness for the amended C2, at the unparsable-file case: defaults come
back and the `.corrupted` sibling receives a copy of the original. -/
theorem settings_load_fallback_witness :
    with_path "/h" "0.1.0" [("cfg/settings.json", FileData.textNotJson)]
        "cfg/settings.json"
      = .ok (defaultSettings "/h" "0.1.0",
          copyF [("cfg/settings.json", FileData.textNotJson)] "cfg/settings.json"
            (withExt "cfg/settings.json" "json.corrupted")) :=
  (settings_load_fallback "/h" "0.1.0" [("cfg/settings.json", FileData.textNotJson)]
      "cfg/settings.json").2.2.2.1 rfl

/-! ### Claim C8 -/

/-- C8: a successful `save` leaves the serialized settings at the target
path, and constructing the manager from that path decodes them back to a
value equal to the original settings. -/
theorem settings_save_load_roundtrip (home ver : String) (fs : SFS) (p : String)
    (s : AppSettings) (fs2 : SFS) (h : save fs p s = .ok fs2) :
    with_path home ver fs2 p = .ok (s, fs2) := by
  have hw : lookupF (save_write fs p s) p = some (.jsonText (encodeAppSettings s)) :=
    lookupF_save_write fs p s
  have hload : load_from_file (save_write fs p s) p = .ok s := by
    rw [show load_from_file (save_write fs p s) p = load_decode (encodeAppSettings s)
      from by unfold load_from_file; rw [hw]]
    unfold load_decode
    rw [decodeAppSettings_encode]
  have hsave : save fs p s = .ok (save_write fs p s) := by
    rw [show save fs p s = save_validate (save_write fs p s) p s from by
      unfold save; rw [decodeAppSettings_encode]]
    unfold save_validate
    rw [hload]
    simp
  have hfs2 : fs2 = save_write fs p s := by
    rw [hsave] at h
    injection h with h2
    exact h2.symm
  subst hfs2
  rw [show with_path home ver (save_write fs p s) p
      = load_with_fallback home ver (save_write fs p s) p from by
    unfold with_path; rw [hw]]
  rw [show load_with_fallback home ver (save_write fs p s) p
      = fallback_decode home ver (save_write fs p s) p (encodeAppSettings s) from by
    unfold load_with_fallback; rw [hw]]
  unfold fallback_decode
  rw [decodeAppSettings_encode]

/-- A concrete non-default settings value exercising every optional
field. -/
def exampleSettings : AppSettings :=
  ⟨⟨"/h/docs", defaultMetadata, .iso8601⟩,
   ⟨.dark, 1920, 1080, true, false, .list, .author⟩,
   some ⟨"2025-01-29T14:00:00Z", some "Kobo123", 5, 42⟩, "0.1.0"⟩

/-- Witness for C8 at a concrete settings value and an initially empty
directory. -/
theorem settings_save_load_roundtrip_witness :
    with_path "/h" "0.1.0" (save_write [] "cfg/settings.json" exampleSettings)
        "cfg/settings.json"
      = .ok (exampleSettings, save_write [] "cfg/settings.json" exampleSettings) :=
  settings_save_load_roundtrip "/h" "0.1.0" [] "cfg/settings.json" exampleSettings
    (save_write [] "cfg/settings.json" exampleSettings) (by rfl)

end Khi

